import Mathlib

set_option maxRecDepth 100000

namespace TinyFS

/-!
Shallow embedding of the TinyFS sources (src/allocator.c, src/metadata_manager.c,
src/api_layer.c, src/storage_manager.c).

Modelling conventions:
* machine integers become Nat (all the arithmetic the claims touch stays far
  below 2^32; the one place uint32 subtraction could wrap, writeFile with a
  cursor beyond BLOCK_SIZE, is undefined behaviour in the C via an unbounded
  memcpy, and every theorem below carries a cursor bound instead);
* the volume is modelled mounted: load_superblock always succeeds and the
  write-through caches of metadata_manager.c and allocator.c (each public
  operation re-loads them from disk and every mutation writes them back
  whole) are collapsed into a single-level state, except that the allocator
  module is additionally modelled with its cache/persisted pair (AllocState)
  so that the persistence behaviour of allocate_block is visible;
* a disk block is interpreted by the C either as a packed array of
  BLOCK_SIZE / sizeof(DirectoryEntry) directory entries or as raw file bytes;
  BlockData keeps the two readings apart, and reading a block under the
  other interpretation (which for reachable states only happens to all-zero
  blocks, whose directory decoding is all-empty slots and whose byte decoding
  is all zeroes) yields the decoding of the zero block;
* the C loops that scan an array for the first index satisfying a condition
  (allocate_block, allocate_inode, get_open_file_index, the directory-slot
  scans) all become firstIdxAux;
* each C return site returning -1 is tagged with the error kind the spec
  gives for that condition (the C itself collapses them all to -1).
-/

def BLOCK_SIZE : Nat := 256
def MAX_FILENAME_LEN : Nat := 32
def MAX_OPEN_FILES : Nat := 64
def MAX_INODES : Nat := 128
def TYPE_FILE : Nat := 1
def TYPE_DIRECTORY : Nat := 2
def MODE_READ : Nat := 1
def MODE_WRITE : Nat := 2
def MODE_APPEND : Nat := 4

/-- sizeof(DirectoryEntry) on the usual ABI: 32-byte name, 4-byte inode
number, 1-byte type, padded to 4-byte alignment. -/
def DIR_ENTRY_SIZE : Nat := 40

/-- entries_per_block = BLOCK_SIZE / sizeof(DirectoryEntry) = 6. -/
def ENTRIES_PER_BLOCK : Nat := BLOCK_SIZE / DIR_ENTRY_SIZE

/-- Directory entry: name (empty list = free slot, as name[0] == 0 in C),
inode number, type tag. -/
structure DirectoryEntry where
  name : List Char
  inode_num : Nat
  typ : Nat
deriving DecidableEq, Repr, Inhabited

def emptyEntry : DirectoryEntry := { name := [], inode_num := 0, typ := 0 }

/-- Inode record of metadata_manager.c / tinyfs.h. -/
structure Inode where
  inode_num : Nat
  typ : Nat
  name : List Char
  size : Nat
  data_block : Nat
  parent_inode : Nat
  created_time : Nat
  modified_time : Nat
  accessed_time : Nat
  used : Bool
deriving DecidableEq, Repr, Inhabited

/-- Open file table entry (the redundant fd field of the C struct is the
index itself and is dropped). -/
structure OpenFileEntry where
  inode_num : Nat
  position : Nat
  mode : Nat
  in_use : Bool
deriving DecidableEq, Repr, Inhabited

/-- One disk block, under the two interpretations the C applies to blocks. -/
inductive BlockData where
  | dirB (entries : List DirectoryEntry)
  | dataB (bytes : List Nat)
deriving DecidableEq, Repr

/-- The zeroed block produced by init_disk's calloc. -/
def zeroDataBlock : BlockData := .dataB (List.replicate BLOCK_SIZE 0)

/-- Mounted filesystem state: superblock fields the operations read
(total_blocks, root_inode), the disk blocks, the free-block bitmap (one Bool
per block; bit i of the C byte array is element i), the inode table and the
open file table. -/
structure FS where
  total_blocks : Nat
  root_inode : Nat
  disk : List BlockData
  bitmap : List Bool
  inodes : List Inode
  open_files : List OpenFileEntry
deriving DecidableEq, Repr

/-- Tag for each -1 return site, named per the spec's error kinds. -/
inductive Err where
  | notFound
  | alreadyExists
  | exhausted
  | notAFile
  | notADirectory
  | notEmpty
  | isRoot
  | full
  | invalidHandle
  | outOfRange
  | badMode
deriving DecidableEq, Repr

/-- Result of an operation: the C int return, tagged. -/
inductive Res (α : Type) where
  | ok (a : α)
  | error (e : Err)
deriving DecidableEq, Repr

/-- First index at or after i, within fuel more indices, satisfying p:
the shape of every ascending first-fit scan loop in the C. -/
def firstIdxAux (p : Nat → Bool) : Nat → Nat → Option Nat
  | _, 0 => none
  | i, f + 1 => if p i then some i else firstIdxAux p (i + 1) f

/-! ## storage_manager.c -/

/-- read_block: fails iff the index is outside the disk. -/
def readBlock (s : FS) (b : Nat) : Option BlockData :=
  s.disk.get? b

/-- write_block: fails iff the index is outside the disk. -/
def writeBlock (s : FS) (b : Nat) (d : BlockData) : Option FS :=
  if b < s.disk.length then some { s with disk := s.disk.set b d } else none

/-! ## allocator.c, collapsed into the FS state -/

/-- Bit i of the bitmap; indices beyond the cached region read as used,
which the scan (bounded by total_blocks <= 8 * bitmap_size) never reaches. -/
def bitAt (s : FS) (i : Nat) : Bool := s.bitmap.getD i true

def freeBitPred (bm : List Bool) (i : Nat) : Bool := !bm.getD i true

/-- The scan loop of allocate_block: first i < total with bit i clear. -/
def firstFree (bm : List Bool) (total : Nat) : Option Nat :=
  firstIdxAux (freeBitPred bm) 0 total

/-- allocate_block: first-fit scan, sets the bit (save_bitmap collapses into
the single-level state here; the Alloc module below keeps it visible). -/
def allocate_block (s : FS) : FS × Option Nat :=
  match firstFree s.bitmap s.total_blocks with
  | some i => ({ s with bitmap := s.bitmap.set i true }, some i)
  | none => (s, none)

/-- free_block: bounds check against total_blocks, then clear the bit. -/
def free_block (s : FS) (b : Nat) : Option FS :=
  if b < s.total_blocks then some { s with bitmap := s.bitmap.set b false }
  else none

/-! ## metadata_manager.c -/

/-- load_inode: bounds check, then indexed read of the fixed-size table. -/
def load_inode (s : FS) (n : Nat) : Option Inode :=
  if n < MAX_INODES then some (s.inodes.getD n default) else none

/-- save_inode: bounds check on inode_num, then whole-table write-through. -/
def save_inode (s : FS) (ino : Inode) : Option FS :=
  if ino.inode_num < MAX_INODES then
    some { s with inodes := s.inodes.set ino.inode_num ino }
  else none

def inodeFreePred (tbl : List Inode) (i : Nat) : Bool :=
  !(tbl.getD i default).used

/-- The slot contents allocate_inode leaves behind: memset to zero, then
inode_num, used and the three timestamps set. -/
def freshInode (i now : Nat) : Inode :=
  { inode_num := i, typ := 0, name := [], size := 0, data_block := 0,
    parent_inode := 0, created_time := now, modified_time := now,
    accessed_time := now, used := true }

/-- allocate_inode: first-fit scan for a used == 0 slot. -/
def allocate_inode (s : FS) (now : Nat) : FS × Option Nat :=
  match firstIdxAux (inodeFreePred s.inodes) 0 MAX_INODES with
  | some i => ({ s with inodes := s.inodes.set i (freshInode i now) }, some i)
  | none => (s, none)

/-- free_inode: clears only the used flag; every other field keeps its
stale value. -/
def free_inode (s : FS) (n : Nat) : Option FS :=
  if n < MAX_INODES then
    some { s with inodes := s.inodes.set n ({ s.inodes.getD n default with used := false }) }
  else none

def usedAt (s : FS) (i : Nat) : Bool := (s.inodes.getD i default).used

def openFreePred (tbl : List OpenFileEntry) (i : Nat) : Bool :=
  !(tbl.getD i default).in_use

/-- get_open_file_index: first open-file slot not in use. -/
def get_open_file_index (s : FS) : Option Nat :=
  firstIdxAux (openFreePred s.open_files) 0 MAX_OPEN_FILES

/-- get_open_file_entry: bounds check, then the slot if it is in use. -/
def get_open_file_entry (s : FS) (fd : Nat) : Option OpenFileEntry :=
  if fd < MAX_OPEN_FILES then
    let e := s.open_files.getD fd default
    if e.in_use then some e else none
  else none

/-! ## directory codec (api_layer.c) -/

/-- A block read as directory entries.  A dataB block is only read this way
for all-zero fresh blocks, whose decoding is all-empty slots. -/
def readAsDir : BlockData → List DirectoryEntry
  | .dirB es => es
  | .dataB _ => List.replicate ENTRIES_PER_BLOCK emptyEntry

/-- A block read as file bytes.  A dirB block is only read this way for
all-zero fresh blocks, whose decoding is all zero bytes. -/
def readAsBytes : BlockData → List Nat
  | .dataB bs => bs
  | .dirB _ => List.replicate BLOCK_SIZE 0

/-- strcmp-based match of slot j of the entry array against a name
(slot occupied and names equal). -/
def entryMatches (es : List DirectoryEntry) (nm : List Char) (j : Nat) : Bool :=
  decide ((es.getD j emptyEntry).name ≠ [] ∧ (es.getD j emptyEntry).name = nm)

/-- Slot j is free (name[0] == 0). -/
def entryEmptyP (es : List DirectoryEntry) (j : Nat) : Bool :=
  decide ((es.getD j emptyEntry).name = [])

/-- Linear scan for the first slot holding nm. -/
def lookupIdx (es : List DirectoryEntry) (nm : List Char) : Option Nat :=
  firstIdxAux (entryMatches es nm) 0 es.length

/-- Linear scan for the first empty slot. -/
def slotEmptyIdx (es : List DirectoryEntry) : Option Nat :=
  firstIdxAux (entryEmptyP es) 0 es.length

/-- read_directory_entries: load the dir inode, require a directory, read
its data block, collect (at most max) entries with non-empty names. -/
def read_directory_entries (s : FS) (dir : Nat) (max : Nat) :
    Option (List DirectoryEntry) :=
  match load_inode s dir with
  | none => none
  | some ino =>
    if ino.typ ≠ TYPE_DIRECTORY then none
    else
      match readBlock s ino.data_block with
      | none => none
      | some bd =>
        some (((readAsDir bd).filter (fun e => !e.name.isEmpty)).take max)

/-- is_directory_empty: count == 0 (a failed read also reports count 0
in the C caller's sense of "not zero", i.e. false here matches the C's
count==0 comparison with count=-1). -/
def is_directory_empty (s : FS) (d : Nat) : Bool :=
  match read_directory_entries s d 16 with
  | some l => l.isEmpty
  | none => false

/-- add_directory_entry: duplicate scan, then first empty slot gets the
(truncated) name; block written back, then the directory mtime saved (the C
ignores save_inode's result). -/
def add_directory_entry (s : FS) (dir : Nat) (nm : List Char) (inum : Nat)
    (t : Nat) (now : Nat) : FS × Res Unit :=
  match load_inode s dir with
  | none => (s, .error .outOfRange)
  | some ino =>
    if ino.typ ≠ TYPE_DIRECTORY then (s, .error .notADirectory)
    else
      match readBlock s ino.data_block with
      | none => (s, .error .outOfRange)
      | some bd =>
        let es := readAsDir bd
        match lookupIdx es nm with
        | some _ => (s, .error .alreadyExists)
        | none =>
          match slotEmptyIdx es with
          | some j =>
            let es2 := es.set j
              { name := nm.take (MAX_FILENAME_LEN - 1), inode_num := inum, typ := t }
            match writeBlock s ino.data_block (.dirB es2) with
            | none => (s, .error .outOfRange)
            | some s1 =>
              match save_inode s1 { ino with modified_time := now } with
              | some s2 => (s2, .ok ())
              | none => (s1, .ok ())
          | none => (s, .error .full)

/-- A sequence of consecutive add_directory_entry calls on one directory,
stopping at the first failure (the shape of the capacity scenario). -/
def addChain : FS → Nat → List (List Char) → Nat → Nat → Nat → FS × Res Unit
  | s, _, [], _, _, _ => (s, .ok ())
  | s, d, nm :: rest, inum, t, now =>
    match add_directory_entry s d nm inum t now with
    | (s1, .ok _) => addChain s1 d rest inum t now
    | (s1, .error e) => (s1, .error e)

/-- remove_directory_entry: first matching slot is memset to zero; block
written back, directory mtime saved. -/
def remove_directory_entry (s : FS) (dir : Nat) (nm : List Char) (now : Nat) :
    FS × Res Unit :=
  match load_inode s dir with
  | none => (s, .error .outOfRange)
  | some ino =>
    if ino.typ ≠ TYPE_DIRECTORY then (s, .error .notADirectory)
    else
      match readBlock s ino.data_block with
      | none => (s, .error .outOfRange)
      | some bd =>
        let es := readAsDir bd
        match lookupIdx es nm with
        | some j =>
          match writeBlock s ino.data_block (.dirB (es.set j emptyEntry)) with
          | none => (s, .error .outOfRange)
          | some s1 =>
            match save_inode s1 { ino with modified_time := now } with
            | some s2 => (s2, .ok ())
            | none => (s1, .ok ())
        | none => (s, .error .notFound)

/-! ## path handling (api_layer.c) -/

/-- parse_path's component splitter: segments between slashes, empty
segments dropped (the C caps at 32 components, beyond which its behaviour
is out of bounds; all claims stay far below that). -/
def parseComponents : List Char → List Char → List (List Char)
  | [], acc => if acc = [] then [] else [acc]
  | c :: rest, acc =>
    if c = '/' then
      (if acc = [] then parseComponents rest [] else acc :: parseComponents rest [])
    else parseComponents rest (acc ++ [c])

/-- parse_path: fails when some component has MAX_FILENAME_LEN or more
characters. -/
def parse_path (p : List Char) : Option (List (List Char)) :=
  let cs := parseComponents p []
  if cs.any (fun c => decide (MAX_FILENAME_LEN - 1 < c.length)) then none
  else some cs

/-- The resolution walk of find_inode_by_path: at each component the current
inode must be a directory, whose block is scanned for the component. -/
def walkPath (s : FS) : List (List Char) → Nat → Option Nat
  | [], cur => some cur
  | comp :: rest, cur =>
    match load_inode s cur with
    | none => none
    | some ino =>
      if ino.typ ≠ TYPE_DIRECTORY then none
      else
        match readBlock s ino.data_block with
        | none => none
        | some bd =>
          let es := readAsDir bd
          match lookupIdx es comp with
          | some j => walkPath s rest (es.getD j emptyEntry).inode_num
          | none => none

/-- find_inode_by_path: "/" is the root, otherwise parse and walk from the
root.  Pure: reads the state, never writes it. -/
def find_inode_by_path (s : FS) (p : List Char) : Option Nat :=
  if p = ['/'] then some s.root_inode
  else
    match parse_path p with
    | none => none
    | some comps => walkPath s comps s.root_inode

/-- strrchr(path, '/'): index of the last slash (scanning positions from
the end; j counts back from the last character). -/
def lastSlashIdx (p : List Char) : Option Nat :=
  match firstIdxAux (fun j => decide (p.getD (p.length - 1 - j) 'a' = '/')) 0 p.length with
  | some j => some (p.length - 1 - j)
  | none => none

/-- The parent-path/filename split at the top of createFile: no slash or a
leading slash only gives parent "/", otherwise the prefix before the last
slash, which is replaced by "/" whenever it does not itself start with a
slash.  The filename is truncated to MAX_FILENAME_LEN - 1 characters. -/
def splitParent (p : List Char) : List Char × List Char :=
  match lastSlashIdx p with
  | none =>
      (['/'], (if p.headD 'a' = '/' then p.drop 1 else p).take (MAX_FILENAME_LEN - 1))
  | some k =>
      if k = 0 then
        (['/'], (if p.headD 'a' = '/' then p.drop 1 else p).take (MAX_FILENAME_LEN - 1))
      else
        ((if (p.take k).headD 'a' = '/' then p.take k else ['/']),
          (p.drop (k + 1)).take (MAX_FILENAME_LEN - 1))

/-! ## file operations (api_layer.c) -/

/-- The rollback arm of createFile: for directories the data block is freed
(result ignored), then the inode is freed. -/
def rollbackCreate (s : FS) (ino : Inode) (t : Nat) (e : Err) : FS × Res Unit :=
  let s1 := if t = TYPE_DIRECTORY ∧ ino.data_block ≠ 0 then
              (free_block s ino.data_block).getD s
            else s
  match free_inode s1 ino.inode_num with
  | some s2 => (s2, .error e)
  | none => (s1, .error e)

/-- The tail of createFile after the new inode record is built: save it,
link it into the parent, rolling back on either failure. -/
def finishCreate (s : FS) (ino : Inode) (parent_inode : Nat)
    (filename : List Char) (t : Nat) (now : Nat) : FS × Res Unit :=
  match save_inode s ino with
  | none => rollbackCreate s ino t .outOfRange
  | some s1 =>
    match add_directory_entry s1 parent_inode filename ino.inode_num t now with
    | (s2, .ok _) => (s2, .ok ())
    | (s2, .error e) => rollbackCreate s2 ino t e

/-- createFile: split the path, resolve the parent, duplicate check in the
parent block, allocate an inode (directories also get a zeroed data block,
the write of which the C does not check), then finishCreate. -/
def createFile (s : FS) (p : List Char) (t : Nat) (now : Nat) : FS × Res Unit :=
  let pr := splitParent p
  match find_inode_by_path s pr.1 with
  | none => (s, .error .notFound)
  | some parent_inode =>
    match load_inode s parent_inode with
    | none => (s, .error .outOfRange)
    | some parent =>
      match readBlock s parent.data_block with
      | none => (s, .error .outOfRange)
      | some bd =>
        match lookupIdx (readAsDir bd) pr.2 with
        | some _ => (s, .error .alreadyExists)
        | none =>
          match allocate_inode s now with
          | (s1, none) => (s1, .error .exhausted)
          | (s1, some new_inode) =>
            let base : Inode :=
              { inode_num := new_inode, typ := t,
                name := pr.2.take (MAX_FILENAME_LEN - 1), size := 0,
                data_block := 0, parent_inode := parent_inode,
                created_time := now, modified_time := now,
                accessed_time := now, used := true }
            if t = TYPE_DIRECTORY then
              match allocate_block s1 with
              | (s2, none) =>
                (match free_inode s2 new_inode with
                 | some s3 => (s3, .error .exhausted)
                 | none => (s2, .error .exhausted))
              | (s2, some db) =>
                let ino := { base with data_block := db }
                let s3 := (writeBlock s2 db
                  (.dirB (List.replicate ENTRIES_PER_BLOCK emptyEntry))).getD s2
                finishCreate s3 ino parent_inode pr.2 t now
            else
              finishCreate s1 base parent_inode pr.2 t now

/-- makeDirectory = createFile with TYPE_DIRECTORY. -/
def makeDirectory (s : FS) (p : List Char) (now : Nat) : FS × Res Unit :=
  createFile s p TYPE_DIRECTORY now

/-- get_file_descriptor: first free open-file slot, initialised with
cursor 0 and the requested mode. -/
def get_file_descriptor (s : FS) (inum : Nat) (mode : Nat) : FS × Option Nat :=
  match get_open_file_index s with
  | none => (s, none)
  | some i =>
    let ne : OpenFileEntry := { inode_num := inum, position := 0, mode := mode, in_use := true }
    ({ s with open_files := s.open_files.set i ne }, some i)

/-- openFile: resolve, require a used file inode, allocate a handle,
stamp the access time. -/
def openFile (s : FS) (p : List Char) (mode : Nat) (now : Nat) : FS × Res Nat :=
  match find_inode_by_path s p with
  | none => (s, .error .notFound)
  | some inum =>
    match load_inode s inum with
    | none => (s, .error .outOfRange)
    | some ino =>
      if !ino.used then (s, .error .notFound)
      else if ino.typ ≠ TYPE_FILE then (s, .error .notAFile)
      else
        match get_file_descriptor s inum mode with
        | (s1, none) => (s1, .error .exhausted)
        | (s1, some fd) =>
          let s2 := (save_inode s1 { ino with accessed_time := now }).getD s1
          (s2, .ok fd)

/-- readFile: requires read mode; cursor at or past size, or no data block,
returns zero bytes; otherwise min(len, size - cursor) bytes from the data
block at the cursor, cursor advanced, atime stamped. -/
def readFile (s : FS) (fd : Nat) (len : Nat) (now : Nat) : FS × Res (List Nat) :=
  match get_open_file_entry s fd with
  | none => (s, .error .invalidHandle)
  | some entry =>
    if entry.mode &&& MODE_READ = 0 then (s, .error .badMode)
    else
      match load_inode s entry.inode_num with
      | none => (s, .error .outOfRange)
      | some ino =>
        if ino.typ ≠ TYPE_FILE then (s, .error .notAFile)
        else if ino.size ≤ entry.position then (s, .ok [])
        else if ino.data_block = 0 then (s, .ok [])
        else
          let bytes_to_read :=
            if ino.size < entry.position + len then ino.size - entry.position
            else len
          match readBlock s ino.data_block with
          | none => (s, .error .outOfRange)
          | some bd =>
            let data := ((readAsBytes bd).drop entry.position).take bytes_to_read
            let entry2 := { entry with position := entry.position + bytes_to_read }
            let s1 := { s with open_files := s.open_files.set fd entry2 }
            let s2 := (save_inode s1 { ino with accessed_time := now }).getD s1
            (s2, .ok data)

/-- memcpy(block + pos, data, data.length) into a one-block buffer. -/
def writeBytesAt (old : List Nat) (pos : Nat) (data : List Nat) : List Nat :=
  old.take pos ++ data ++ old.drop (pos + data.length)

/-- The lazy data-block allocation at the top of writeFile: files with
data_block == 0 get the next free block. -/
def writeAllocate (s : FS) (ino : Inode) : Option (FS × Inode) :=
  if ino.data_block = 0 then
    match allocate_block s with
    | (s1, some b) => some (s1, { ino with data_block := b })
    | (_, none) => none
  else some (s, ino)

/-- writeFile: requires write or append mode; lazily allocates the data
block; write position is size (append) or the cursor (write); truncated to
the block; size grows to pos + written when that exceeds it; cursor moves to
the new size (append) or by the written count (write). -/
def writeFile (s : FS) (fd : Nat) (data : List Nat) (now : Nat) : FS × Res Nat :=
  match get_open_file_entry s fd with
  | none => (s, .error .invalidHandle)
  | some entry =>
    if entry.mode &&& (MODE_WRITE ||| MODE_APPEND) = 0 then (s, .error .badMode)
    else
      match load_inode s entry.inode_num with
      | none => (s, .error .outOfRange)
      | some ino =>
        if ino.typ ≠ TYPE_FILE then (s, .error .notAFile)
        else
          match writeAllocate s ino with
          | none => (s, .error .exhausted)
          | some (s1, ino1) =>
            match readBlock s1 ino1.data_block with
            | none => (s1, .error .outOfRange)
            | some bd =>
              let write_pos :=
                if entry.mode &&& MODE_APPEND ≠ 0 then ino1.size else entry.position
              let bytes_to_write :=
                if BLOCK_SIZE < write_pos + data.length then BLOCK_SIZE - write_pos
                else data.length
              let newBytes := writeBytesAt (readAsBytes bd) write_pos (data.take bytes_to_write)
              match writeBlock s1 ino1.data_block (.dataB newBytes) with
              | none => (s1, .error .outOfRange)
              | some s2 =>
                let newSize :=
                  if ino1.size < write_pos + bytes_to_write then write_pos + bytes_to_write
                  else ino1.size
                let ino2 := { ino1 with size := newSize, modified_time := now, accessed_time := now }
                let newPos :=
                  if entry.mode &&& MODE_APPEND ≠ 0 then newSize
                  else entry.position + bytes_to_write
                let entry2 := { entry with position := newPos }
                let s3 := { s2 with open_files := s2.open_files.set fd entry2 }
                let s4 := (save_inode s3 ino2).getD s3
                (s4, .ok bytes_to_write)

/-- deleteFile: resolve, require a file, unlink from the parent, free the
data block (if any, result ignored) and the inode (result ignored). -/
def deleteFile (s : FS) (p : List Char) (now : Nat) : FS × Res Unit :=
  match find_inode_by_path s p with
  | none => (s, .error .notFound)
  | some inum =>
    match load_inode s inum with
    | none => (s, .error .outOfRange)
    | some ino =>
      if ino.typ ≠ TYPE_FILE then (s, .error .notAFile)
      else
        match load_inode s ino.parent_inode with
        | none => (s, .error .outOfRange)
        | some _ =>
          match remove_directory_entry s ino.parent_inode ino.name now with
          | (s1, .error e) => (s1, .error e)
          | (s1, .ok _) =>
            let s2 := if ino.data_block ≠ 0 then (free_block s1 ino.data_block).getD s1
                      else s1
            match free_inode s2 inum with
            | some s3 => (s3, .ok ())
            | none => (s2, .ok ())

/-- searchFile: pure existence check through the resolver. -/
def searchFile (s : FS) (p : List Char) : FS × Bool :=
  (s, (find_inode_by_path s p).isSome)

/-- removeDirectory: resolve, require a directory, require it empty,
require it not be the root, then unlink and free like delete. -/
def removeDirectory (s : FS) (p : List Char) (now : Nat) : FS × Res Unit :=
  match find_inode_by_path s p with
  | none => (s, .error .notFound)
  | some inum =>
    match load_inode s inum with
    | none => (s, .error .outOfRange)
    | some ino =>
      if ino.typ ≠ TYPE_DIRECTORY then (s, .error .notADirectory)
      else if !is_directory_empty s inum then (s, .error .notEmpty)
      else if inum = s.root_inode then (s, .error .isRoot)
      else
        match remove_directory_entry s ino.parent_inode ino.name now with
        | (s1, .error e) => (s1, .error e)
        | (s1, .ok _) =>
          let s2 := if ino.data_block ≠ 0 then (free_block s1 ino.data_block).getD s1
                    else s1
          match free_inode s2 inum with
          | some s3 => (s3, .ok ())
          | none => (s2, .ok ())

end TinyFS

namespace TinyFS.Alloc

/-- Allocator-module state: the in-memory bitmap cache and the bitmap
region as persisted on disk by save_bitmap. -/
structure AllocState where
  total_blocks : Nat
  bitmap : List Bool
  disk_bitmap : List Bool
deriving DecidableEq, Repr

/-- save_bitmap: write the whole cached bitmap region back to disk. -/
def save_bitmap (a : AllocState) : AllocState :=
  { a with disk_bitmap := a.bitmap }

/-- allocate_block of allocator.c: ascending scan for the first clear bit,
set it, persist, return it; no free bit means failure with no mutation. -/
def allocate_block (a : AllocState) : AllocState × Option Nat :=
  match TinyFS.firstFree a.bitmap a.total_blocks with
  | some i => (save_bitmap { a with bitmap := a.bitmap.set i true }, some i)
  | none => (a, none)

end TinyFS.Alloc

namespace TinyFS

/-! ## Concrete volumes used to instantiate the theorems.
baseFS is a freshly formatted 8-block volume: block 0 superblock, block 1
bitmap, block 2 inode table, block 3 the root directory's (empty) data
block; root inode 0. -/

def rootIno : Inode :=
  { inode_num := 0, typ := 2, name := ['/'], size := 0, data_block := 3,
    parent_inode := 0, created_time := 0, modified_time := 0,
    accessed_time := 0, used := true }

def emptyDirBlock : BlockData := .dirB (List.replicate 6 emptyEntry)

def baseFS : FS :=
  { total_blocks := 8, root_inode := 0,
    disk := (List.replicate 8 zeroDataBlock).set 3 emptyDirBlock,
    bitmap := ((((List.replicate 8 false).set 0 true).set 1 true).set 2 true).set 3 true,
    inodes := (List.replicate 128 default).set 0 rootIno,
    open_files := List.replicate 64 default }

/-- baseFS with a file "a.txt" (inode 1, still without a data block)
linked into the root. -/
def fileIno : Inode :=
  { inode_num := 1, typ := 1, name := "a.txt".toList, size := 0,
    data_block := 0, parent_inode := 0, created_time := 0,
    modified_time := 0, accessed_time := 0, used := true }

def fileFS : FS :=
  { baseFS with
    disk := (List.replicate 8 zeroDataBlock).set 3
      (.dirB (⟨"a.txt".toList, 1, 1⟩ :: List.replicate 5 emptyEntry)),
    inodes := ((List.replicate 128 default).set 0 rootIno).set 1 fileIno }

/-- fileFS with two bytes 104 105 ("hi") written to the file (data block 4)
and the file open for reading on handle 0 with cursor 0. -/
def fileIno2 : Inode := { fileIno with size := 2, data_block := 4 }

def readEntry : OpenFileEntry :=
  { inode_num := 1, position := 0, mode := 1, in_use := true }

def dataFS : FS :=
  { fileFS with
    disk := fileFS.disk.set 4 (.dataB (104 :: 105 :: List.replicate 254 0)),
    bitmap := fileFS.bitmap.set 4 true,
    inodes := fileFS.inodes.set 1 fileIno2,
    open_files := (List.replicate 64 default).set 0 readEntry }

/-- fileFS with the empty file open for writing on handle 0. -/
def writeEntry : OpenFileEntry :=
  { inode_num := 1, position := 0, mode := 2, in_use := true }

def writeFS : FS :=
  { fileFS with open_files := (List.replicate 64 default).set 0 writeEntry }

/-- baseFS with the root directory full: six entries naming inodes 1..6,
all marked used. -/
def fullIno (i : Nat) (c : Char) : Inode :=
  { inode_num := i, typ := 1, name := [c], size := 0, data_block := 0,
    parent_inode := 0, created_time := 0, modified_time := 0,
    accessed_time := 0, used := true }

def fullRootFS : FS :=
  { baseFS with
    disk := (List.replicate 8 zeroDataBlock).set 3
      (.dirB [⟨['a'], 1, 1⟩, ⟨['b'], 2, 1⟩, ⟨['c'], 3, 1⟩,
              ⟨['d'], 4, 1⟩, ⟨['e'], 5, 1⟩, ⟨['f'], 6, 1⟩]),
    inodes := (((((((List.replicate 128 default).set 0 rootIno).set 1
      (fullIno 1 'a')).set 2 (fullIno 2 'b')).set 3 (fullIno 3 'c')).set 4
      (fullIno 4 'd')).set 5 (fullIno 5 'e')).set 6 (fullIno 6 'f') }

/-- baseFS with an empty directory "d" (inode 1, data block 4) in the root. -/
def dirIno : Inode :=
  { inode_num := 1, typ := 2, name := ['d'], size := 0, data_block := 4,
    parent_inode := 0, created_time := 0, modified_time := 0,
    accessed_time := 0, used := true }

def dirFS : FS :=
  { baseFS with
    disk := ((List.replicate 8 zeroDataBlock).set 3
      (.dirB (⟨['d'], 1, 2⟩ :: List.replicate 5 emptyEntry))).set 4 emptyDirBlock,
    bitmap := baseFS.bitmap.set 4 true,
    inodes := ((List.replicate 128 default).set 0 rootIno).set 1 dirIno }

/-- A concrete allocator state: 8 blocks, blocks 0-3 used, cache and disk
in sync. -/
def allocBase : Alloc.AllocState :=
  { total_blocks := 8,
    bitmap := ((((List.replicate 8 false).set 0 true).set 1 true).set 2 true).set 3 true,
    disk_bitmap := ((((List.replicate 8 false).set 0 true).set 1 true).set 2 true).set 3 true }

/-! ## Generic lemmas about the first-fit scan and list updates -/

theorem getD_set_self {α : Type} (l : List α) (j : Nat) (a d : α)
    (h : j < l.length) : (l.set j a).getD j d = a := by
  induction l generalizing j with
  | nil => exact absurd h (by simp)
  | cons x xs ih =>
    cases j with
    | zero => rfl
    | succ n =>
      simp only [List.set_cons_succ, List.getD_cons_succ]
      exact ih n (by simpa using h)

theorem getD_set_other {α : Type} (l : List α) (i j : Nat) (a d : α)
    (h : i ≠ j) : (l.set j a).getD i d = l.getD i d := by
  induction l generalizing i j with
  | nil => rfl
  | cons x xs ih =>
    cases j with
    | zero =>
      cases i with
      | zero => exact absurd rfl h
      | succ m => simp [List.set_cons_zero, List.getD_cons_succ]
    | succ n =>
      cases i with
      | zero => simp [List.set_cons_succ, List.getD_cons_zero]
      | succ m =>
        simp only [List.set_cons_succ, List.getD_cons_succ]
        exact ih m n (fun hh => h (by rw [hh]))

theorem firstIdxAux_some (p : Nat → Bool) (f i j : Nat)
    (h : firstIdxAux p i f = some j) :
    i ≤ j ∧ j < i + f ∧ p j = true ∧ ∀ k, i ≤ k → k < j → p k = false := by
  induction f generalizing i with
  | zero => exact absurd h (by simp [firstIdxAux])
  | succ n ih =>
    rw [firstIdxAux] at h
    by_cases hp : p i = true
    · rw [if_pos hp] at h
      obtain rfl : i = j := by exact Option.some.inj h
      exact ⟨Nat.le_refl _, by omega, hp, fun k hk1 hk2 => absurd hk1 (by omega)⟩
    · rw [if_neg hp] at h
      obtain ⟨h1, h2, h3, h4⟩ := ih (i + 1) h
      refine ⟨by omega, by omega, h3, fun k hk1 hk2 => ?_⟩
      rcases Nat.eq_or_lt_of_le hk1 with he | hl
      · rw [← he]
        cases hq : p i with
        | false => rfl
        | true => exact absurd hq hp
      · exact h4 k hl hk2

theorem firstIdxAux_none (p : Nat → Bool) (f i : Nat) :
    firstIdxAux p i f = none ↔ ∀ k, i ≤ k → k < i + f → p k = false := by
  induction f generalizing i with
  | zero => simp [firstIdxAux]; intro k h1 h2; omega
  | succ n ih =>
    rw [firstIdxAux]
    by_cases hp : p i = true
    · rw [if_pos hp]
      constructor
      · intro h; exact absurd h (by simp)
      · intro h
        exact absurd (h i (Nat.le_refl _) (by omega)) (by simp [hp])
    · rw [if_neg hp]
      rw [ih (i + 1)]
      constructor
      · intro h k hk1 hk2
        rcases Nat.eq_or_lt_of_le hk1 with he | hl
        · rw [← he]
          cases hq : p i with
          | false => rfl
          | true => exact absurd hq hp
        · exact h k hl (by omega)
      · intro h k hk1 hk2
        exact h k (by omega) (by omega)

theorem firstIdxAux_eq_some (p : Nat → Bool) (f i j : Nat)
    (h1 : i ≤ j) (h2 : j < i + f) (h3 : p j = true)
    (h4 : ∀ k, i ≤ k → k < j → p k = false) :
    firstIdxAux p i f = some j := by
  induction f generalizing i with
  | zero => omega
  | succ n ih =>
    rw [firstIdxAux]
    rcases Nat.eq_or_lt_of_le h1 with he | hl
    · rw [he, if_pos h3]
    · rw [if_neg (by simp [h4 i (Nat.le_refl _) hl])]
      exact ih (i + 1) hl (by omega) (fun k hk1 hk2 => h4 k (by omega) hk2)

/-! ## Claim theorems -/

/-- C8: searchFile is a pure existence check: the state after the call is
the state before it, and the returned boolean is exactly whether
find_inode_by_path resolves the path. -/
theorem searchFile_pure (s : FS) (p : List Char) :
    (searchFile s p).1 = s ∧
      (searchFile s p).2 = (find_inode_by_path s p).isSome :=
  ⟨rfl, rfl⟩

/-- C6: on a bitmap with a free bit, allocate_block returns the smallest
free index, sets that bit and persists the bitmap before returning; with no
free bit it fails leaving the state unchanged (Exhausted); and the chosen
block is a function of the bitmap and the block count alone (deterministic
first fit). -/
theorem allocate_block_first_fit (a b : Alloc.AllocState) :
    ((∃ i, i < a.total_blocks ∧ a.bitmap.getD i true = false) →
      ∃ blk, (Alloc.allocate_block a).2 = some blk ∧
        blk < a.total_blocks ∧ a.bitmap.getD blk true = false ∧
        (∀ j, j < blk → a.bitmap.getD j true = true) ∧
        (Alloc.allocate_block a).1.bitmap = a.bitmap.set blk true ∧
        (Alloc.allocate_block a).1.disk_bitmap = (Alloc.allocate_block a).1.bitmap) ∧
    ((∀ i, i < a.total_blocks → a.bitmap.getD i true = true) →
      Alloc.allocate_block a = (a, none)) ∧
    (a.bitmap = b.bitmap → a.total_blocks = b.total_blocks →
      (Alloc.allocate_block a).2 = (Alloc.allocate_block b).2) := by
  refine ⟨?_, ?_, ?_⟩
  · rintro ⟨i, hi, hfree⟩
    cases hm : firstFree a.bitmap a.total_blocks with
    | none =>
      rw [firstFree] at hm
      have hall := (firstIdxAux_none _ _ _).mp hm i (Nat.zero_le _) (by omega)
      rw [freeBitPred, hfree] at hall
      simp at hall
    | some blk =>
      obtain ⟨-, h2, h3, h4⟩ := firstIdxAux_some _ _ _ _ hm
      rw [freeBitPred] at h3
      refine ⟨blk, ?_, by omega, by simpa using h3, ?_, ?_, ?_⟩
      · simp [Alloc.allocate_block, hm]
      · intro j hj
        have := h4 j (Nat.zero_le _) hj
        rw [freeBitPred] at this
        simpa using this
      · simp [Alloc.allocate_block, hm, Alloc.save_bitmap]
      · simp [Alloc.allocate_block, hm, Alloc.save_bitmap]
  · intro hall
    have hm : firstFree a.bitmap a.total_blocks = none := by
      rw [firstFree, firstIdxAux_none]
      intro k hk1 hk2
      rw [freeBitPred, hall k (by omega)]
      rfl
    simp [Alloc.allocate_block, hm]
  · intro hbm ht
    rw [Alloc.allocate_block, Alloc.allocate_block, hbm, ht]
    cases firstFree b.bitmap b.total_blocks with
    | none => rfl
    | some i => rfl

/-- Witness for C6 at a concrete allocator state. -/
theorem allocate_block_first_fit_witness :
    (∃ i, i < allocBase.total_blocks ∧ allocBase.bitmap.getD i true = false) ∧
    ∃ blk, (Alloc.allocate_block allocBase).2 = some blk ∧
      blk < allocBase.total_blocks ∧ allocBase.bitmap.getD blk true = false ∧
      (∀ j, j < blk → allocBase.bitmap.getD j true = true) ∧
      (Alloc.allocate_block allocBase).1.bitmap = allocBase.bitmap.set blk true ∧
      (Alloc.allocate_block allocBase).1.disk_bitmap =
        (Alloc.allocate_block allocBase).1.bitmap :=
  ⟨⟨4, by decide, by decide⟩,
    (allocate_block_first_fit allocBase allocBase).1 ⟨4, by decide, by decide⟩⟩

/-- C3: for a handle open in read mode on a file, readFile yields zero
bytes (not an error) when the cursor is at or past the size or the file has
no data block; otherwise it returns exactly min(len, size - cursor) bytes
copied from the data block at the cursor offset and advances the cursor by
that count. -/
theorem readFile_spec (s : FS) (fd len now : Nat) (entry : OpenFileEntry)
    (ino : Inode) (bs : List Nat)
    (hfd : fd < MAX_OPEN_FILES)
    (hflen : s.open_files.length = MAX_OPEN_FILES)
    (hentry : s.open_files.getD fd default = entry)
    (huse : entry.in_use = true)
    (hmode : entry.mode &&& MODE_READ ≠ 0)
    (hino : entry.inode_num < MAX_INODES)
    (hload : s.inodes.getD entry.inode_num default = ino)
    (htyp : ino.typ = TYPE_FILE)
    (hdb : readBlock s ino.data_block = some (.dataB bs))
    (hbs : bs.length = BLOCK_SIZE)
    (hsz : ino.size ≤ BLOCK_SIZE) :
    ((ino.size ≤ entry.position ∨ ino.data_block = 0) →
      readFile s fd len now = (s, .ok [])) ∧
    (entry.position < ino.size → ino.data_block ≠ 0 →
      (readFile s fd len now).2 =
        .ok ((bs.drop entry.position).take (min len (ino.size - entry.position))) ∧
      ((bs.drop entry.position).take (min len (ino.size - entry.position))).length
        = min len (ino.size - entry.position) ∧
      ((readFile s fd len now).1.open_files.getD fd default).position
        = entry.position + min len (ino.size - entry.position)) := by
  have hget : get_open_file_entry s fd = some entry := by
    rw [get_open_file_entry, if_pos hfd, hentry, if_pos huse]
  have hli : load_inode s entry.inode_num = some ino := by
    rw [load_inode, if_pos hino, hload]
  have hmin : (if ino.size < entry.position + len then ino.size - entry.position
      else len) = min len (ino.size - entry.position) := by
    rw [Nat.min_def]; split <;> split <;> omega
  constructor
  · intro hcase
    rcases hcase with hpos | hzero
    · rw [readFile, hget]
      simp only [hli]
      rw [if_neg (by simpa using hmode), if_neg (by simp [htyp, TYPE_FILE]),
        if_pos hpos]
    · rw [readFile, hget]
      simp only [hli]
      rw [if_neg (by simpa using hmode), if_neg (by simp [htyp, TYPE_FILE])]
      by_cases hpos : ino.size ≤ entry.position
      · rw [if_pos hpos]
      · rw [if_neg hpos, if_pos hzero]
  · intro hlt hnz
    rw [readFile, hget]
    simp only [hli]
    rw [if_neg (by simpa using hmode), if_neg (by simp [htyp, TYPE_FILE]),
      if_neg (by omega), if_neg hnz, hdb]
    simp only [readAsBytes, hmin]
    refine ⟨trivial, ?_, ?_⟩
    · rw [List.length_take, List.length_drop, hbs]
      rw [Nat.min_def]
      split <;> omega
    · have hsave : ∀ s2 : FS, ino.inode_num < MAX_INODES →
          ((save_inode s2 { ino with accessed_time := now }).getD s2).open_files
            = s2.open_files := by
        intro s2 hn
        rw [save_inode, if_pos hn]
        rfl
      by_cases hn : ino.inode_num < MAX_INODES
      · rw [hsave _ hn, getD_set_self _ _ _ _ (by omega)]
      · rw [save_inode, if_neg hn]
        simp only [Option.getD_none]
        rw [getD_set_self _ _ _ _ (by omega)]

/-- Witness for C3: reading 10 bytes of the 2-byte file "hi" through
handle 0 returns the 2 stale-free bytes and moves the cursor to 2. -/
theorem readFile_spec_witness :
    (readFile dataFS 0 10 99).2 = .ok [104, 105] ∧
    ((readFile dataFS 0 10 99).1.open_files.getD 0 default).position = 2 := by
  have h := (readFile_spec dataFS 0 10 99 readEntry fileIno2
      (104 :: 105 :: List.replicate 254 0) (by decide) (by decide) (by decide)
      (by decide) (by decide) (by decide) (by decide) (by decide) (by decide)
      (by decide) (by decide)).2 (by decide) (by decide)
  obtain ⟨h1, -, h3⟩ := h
  exact ⟨by rw [h1]; decide, by rw [h3]; decide⟩

/-- C2: for a handle open in write or append mode, writeFile returns
written_count = min(data.length, BLOCK_SIZE - write_pos), where write_pos is
the file size in append mode and the cursor in write mode (bytes beyond the
single block are dropped), and the file size becomes write_pos + written
whenever that exceeds the old size. -/
theorem writeFile_spec (s : FS) (fd now : Nat) (data : List Nat)
    (entry : OpenFileEntry) (ino : Inode)
    (hfd : fd < MAX_OPEN_FILES)
    (hilen : s.inodes.length = MAX_INODES)
    (hentry : s.open_files.getD fd default = entry)
    (huse : entry.in_use = true)
    (hmode : entry.mode &&& (MODE_WRITE ||| MODE_APPEND) ≠ 0)
    (hino : entry.inode_num < MAX_INODES)
    (hload : s.inodes.getD entry.inode_num default = ino)
    (hid : ino.inode_num = entry.inode_num)
    (htyp : ino.typ = TYPE_FILE)
    (hpos : entry.position ≤ BLOCK_SIZE)
    (hsz : ino.size ≤ BLOCK_SIZE)
    (hblk : (ino.data_block ≠ 0 ∧ ino.data_block < s.disk.length) ∨
      (ino.data_block = 0 ∧ ∃ b, firstFree s.bitmap s.total_blocks = some b ∧
        b < s.disk.length)) :
    (writeFile s fd data now).2 = .ok (min data.length (BLOCK_SIZE -
      (if entry.mode &&& MODE_APPEND ≠ 0 then ino.size else entry.position))) ∧
    ((writeFile s fd data now).1.inodes.getD entry.inode_num default).size =
      (if ino.size < (if entry.mode &&& MODE_APPEND ≠ 0 then ino.size
            else entry.position) +
          min data.length (BLOCK_SIZE -
            (if entry.mode &&& MODE_APPEND ≠ 0 then ino.size else entry.position))
        then (if entry.mode &&& MODE_APPEND ≠ 0 then ino.size
            else entry.position) +
          min data.length (BLOCK_SIZE -
            (if entry.mode &&& MODE_APPEND ≠ 0 then ino.size else entry.position))
        else ino.size) := by
  have hget : get_open_file_entry s fd = some entry := by
    rw [get_open_file_entry, if_pos hfd, hentry, if_pos huse]
  have hli : load_inode s entry.inode_num = some ino := by
    rw [load_inode, if_pos hino, hload]
  have hwp : (if entry.mode &&& MODE_APPEND ≠ 0 then ino.size else entry.position)
      ≤ BLOCK_SIZE := by
    split <;> assumption
  have hmin : ∀ wp : Nat, wp ≤ BLOCK_SIZE →
      (if BLOCK_SIZE < wp + data.length then BLOCK_SIZE - wp else data.length)
        = min data.length (BLOCK_SIZE - wp) := by
    intro wp h
    rw [Nat.min_def]; split <;> split <;> omega
  rw [writeFile, hget]
  simp only [hli]
  rw [if_neg (by simpa using hmode), if_neg (by simp [htyp, TYPE_FILE])]
  rcases hblk with ⟨hnz, hlt⟩ | ⟨hz, b, hb, hblt⟩
  · have hwa : writeAllocate s ino = some (s, ino) := by
      rw [writeAllocate, if_neg hnz]
    obtain ⟨bd, hbd⟩ : ∃ bd, readBlock s ino.data_block = some bd := by
      rw [readBlock]
      rcases hgd : s.disk.get? ino.data_block with _ | bd
      · exact absurd (List.get?_eq_none.mp hgd) (by omega)
      · exact ⟨bd, rfl⟩
    simp only [hwa, hbd]
    rw [writeBlock, if_pos hlt]
    simp only [hmin _ hwp, save_inode, hid, if_pos hino]
    refine ⟨trivial, ?_⟩
    simp only [Option.getD_some]
    rw [getD_set_self _ _ _ _ (by omega)]
  · have hwa : writeAllocate s ino =
        some ({ s with bitmap := s.bitmap.set b true }, { ino with data_block := b }) := by
      rw [writeAllocate, if_pos hz, allocate_block, hb]
    obtain ⟨bd, hbd⟩ :
        ∃ bd, readBlock { s with bitmap := s.bitmap.set b true } b = some bd := by
      rw [readBlock]
      rcases hgd : ({ s with bitmap := s.bitmap.set b true } : FS).disk.get? b with _ | bd
      · exact absurd (List.get?_eq_none.mp hgd) (by simp; omega)
      · exact ⟨bd, rfl⟩
    simp only [hwa, hbd]
    rw [writeBlock, if_pos (by simpa using hblt)]
    simp only [hmin _ hwp, save_inode, hid, if_pos hino]
    refine ⟨trivial, ?_⟩
    simp only [Option.getD_some]
    rw [getD_set_self _ _ _ _ (by omega)]

/-- Witness for C2: writing BLOCK_SIZE + 50 = 306 bytes at cursor 0 through
a write-mode handle returns exactly BLOCK_SIZE = 256 and sets the file size
to 256. -/
theorem writeFile_spec_witness :
    (writeFile writeFS 0 (List.replicate 306 7) 42).2 = .ok 256 ∧
    ((writeFile writeFS 0 (List.replicate 306 7) 42).1.inodes.getD
        writeEntry.inode_num default).size = 256 := by
  have h := writeFile_spec writeFS 0 42 (List.replicate 306 7) writeEntry fileIno
    (by decide) (by decide) (by decide) (by decide) (by decide) (by decide)
    (by decide) (by decide) (by decide) (by decide) (by decide)
    (Or.inr ⟨by decide, 4, by decide, by decide⟩)
  obtain ⟨h1, h2⟩ := h
  exact ⟨by rw [h1]; decide, by rw [h2]; decide⟩

theorem getD_mem {α : Type} (l : List α) (n : Nat) (d : α) (h : n < l.length) :
    l.getD n d ∈ l := by
  induction l generalizing n with
  | nil => exact absurd h (by simp)
  | cons x xs ih =>
    cases n with
    | zero => exact List.mem_cons_self _ _
    | succ m =>
      rw [List.getD_cons_succ]
      exact List.mem_cons_of_mem _ (ih m (by simpa using h))

theorem mem_getD {α : Type} (l : List α) (a d : α) (h : a ∈ l) :
    ∃ n, n < l.length ∧ l.getD n d = a := by
  induction l with
  | nil => exact absurd h (by simp)
  | cons x xs ih =>
    rcases List.mem_cons.mp h with rfl | hx
    · exact ⟨0, by simp, rfl⟩
    · obtain ⟨n, hn, he⟩ := ih hx
      exact ⟨n + 1, by simpa using hn, by rw [List.getD_cons_succ]; exact he⟩

theorem getD_drop {α : Type} (l : List α) (i j : Nat) (d : α) :
    (l.drop i).getD j d = l.getD (i + j) d := by
  induction i generalizing l with
  | zero => simp
  | succ n ih =>
    cases l with
    | nil => simp
    | cons x xs =>
      rw [List.drop_succ_cons, ih xs]
      have he : n + 1 + j = (n + j) + 1 := by omega
      rw [he, List.getD_cons_succ]

theorem lastSlashIdx_some (p : List Char) (k : Nat)
    (h : lastSlashIdx p = some k) :
    k < p.length ∧ p.getD k 'a' = '/' ∧
      ∀ m, k < m → m < p.length → p.getD m 'a' ≠ '/' := by
  rw [lastSlashIdx] at h
  cases hm : firstIdxAux (fun j => decide (p.getD (p.length - 1 - j) 'a' = '/'))
      0 p.length with
  | none => rw [hm] at h; exact absurd h (by simp)
  | some j =>
    rw [hm] at h
    obtain ⟨-, hj2, hj3, hj4⟩ := firstIdxAux_some _ _ _ _ hm
    obtain rfl : p.length - 1 - j = k := Option.some.inj h
    refine ⟨by omega, by simpa using hj3, ?_⟩
    intro m hm1 hm2 hcon
    have hj' : p.length - 1 - m < j := by omega
    have hfalse := hj4 (p.length - 1 - m) (Nat.zero_le _) hj'
    have hmm : p.length - 1 - (p.length - 1 - m) = m := by omega
    rw [hmm] at hfalse
    rw [decide_eq_false_iff_not] at hfalse
    exact hfalse hcon

theorem lastSlashIdx_cons_slash (leaf : List Char) (h : '/' ∉ leaf) :
    lastSlashIdx ('/' :: leaf) = some 0 := by
  have hlen : ('/' :: leaf).length = leaf.length + 1 := by simp
  have hfi : firstIdxAux
      (fun j => decide ((('/' :: leaf)).getD (('/' :: leaf).length - 1 - j) 'a' = '/'))
      0 ('/' :: leaf).length = some leaf.length := by
    apply firstIdxAux_eq_some
    · exact Nat.zero_le _
    · omega
    · show decide ((('/' :: leaf)).getD (('/' :: leaf).length - 1 - leaf.length) 'a'
          = '/') = true
      have he : ('/' :: leaf).length - 1 - leaf.length = 0 := by omega
      rw [he]
      rfl
    · intro m hm1 hm2
      show decide ((('/' :: leaf)).getD (('/' :: leaf).length - 1 - m) 'a' = '/') = false
      have he : ('/' :: leaf).length - 1 - m = (leaf.length - 1 - m) + 1 := by omega
      rw [he, List.getD_cons_succ, decide_eq_false_iff_not]
      intro hcon
      exact h (hcon ▸ getD_mem leaf (leaf.length - 1 - m) 'a' (by omega))
  rw [lastSlashIdx, hfi]
  show some (('/' :: leaf).length - 1 - leaf.length) = some 0
  have he : ('/' :: leaf).length - 1 - leaf.length = 0 := by omega
  rw [he]

theorem no_slash_in_drop (p : List Char) (k : Nat)
    (hk : lastSlashIdx p = some k) : '/' ∉ p.drop (k + 1) := by
  obtain ⟨hklt, hkv, hmax⟩ := lastSlashIdx_some p k hk
  intro hmem
  obtain ⟨j, hj, he⟩ := mem_getD (p.drop (k + 1)) '/' 'a' hmem
  rw [getD_drop] at he
  rw [List.length_drop] at hj
  exact hmax (k + 1 + j) (by omega) (by omega) he

theorem headD_take (p : List Char) (k : Nat) (d : Char) (hk : 0 < k) :
    (p.take k).headD d = p.headD d := by
  cases p with
  | nil => simp
  | cons x xs =>
    cases k with
    | zero => omega
    | succ m => rfl

/-- C9: for a relative path containing a slash (a last slash at index
k > 0 and a head that is not a slash), createFile replaces the computed
parent with "/" and behaves exactly as creating the leaf (the text after
the last slash) directly in the root directory. -/
theorem createFile_relative_root (s : FS) (p : List Char) (t now k : Nat)
    (hhead : p.headD 'a' ≠ '/')
    (hk : lastSlashIdx p = some k) :
    splitParent p = (['/'], (p.drop (k + 1)).take (MAX_FILENAME_LEN - 1)) ∧
    createFile s p t now = createFile s ('/' :: p.drop (k + 1)) t now := by
  obtain ⟨hklt, hkv, hmax⟩ := lastSlashIdx_some p k hk
  have hk0 : k ≠ 0 := by
    intro h0
    rw [h0] at hkv
    cases p with
    | nil => exact absurd hklt (by simp)
    | cons c cs => exact hhead hkv
  have hsp1 : splitParent p = (['/'], (p.drop (k + 1)).take (MAX_FILENAME_LEN - 1)) := by
    rw [splitParent, hk]
    show (if k = 0 then
        (['/'], (if p.headD 'a' = '/' then p.drop 1 else p).take (MAX_FILENAME_LEN - 1))
      else
        ((if (p.take k).headD 'a' = '/' then p.take k else ['/']),
          (p.drop (k + 1)).take (MAX_FILENAME_LEN - 1)))
      = (['/'], (p.drop (k + 1)).take (MAX_FILENAME_LEN - 1))
    rw [if_neg hk0]
    rw [if_neg (by rw [headD_take p k 'a' (by omega)]; exact hhead)]
  have hsp2 : splitParent ('/' :: p.drop (k + 1)) =
      (['/'], (p.drop (k + 1)).take (MAX_FILENAME_LEN - 1)) := by
    rw [splitParent, lastSlashIdx_cons_slash _ (no_slash_in_drop p k hk)]
    rfl
  refine ⟨hsp1, ?_⟩
  rw [createFile, createFile, hsp1, hsp2]

/-- Witness for C9: creating "a/b" is creating "/b" (leaf in the root). -/
theorem createFile_relative_root_witness :
    splitParent "a/b".toList = (['/'], ['b']) ∧
    createFile baseFS "a/b".toList 1 0 =
      createFile baseFS ('/' :: "a/b".toList.drop 2) 1 0 := by
  have h := createFile_relative_root baseFS "a/b".toList 1 0 1 (by decide) (by decide)
  exact ⟨by rw [h.1]; decide, h.2⟩

theorem remove_entry_cases (s : FS) (d : Nat) (nm : List Char) (now : Nat) :
    (∀ e, (remove_directory_entry s d nm now).2 = .error e →
      (remove_directory_entry s d nm now).1 = s) ∧
    (∀ s1, remove_directory_entry s d nm now = (s1, .ok ()) →
      s1.bitmap = s.bitmap ∧ s1.total_blocks = s.total_blocks ∧
      s1.inodes.length = s.inodes.length) := by
  rw [remove_directory_entry]
  cases hli : load_inode s d with
  | none => exact ⟨fun e h => rfl, fun s1 h => by simp at h⟩
  | some ino =>
    simp only []
    by_cases ht : ino.typ ≠ TYPE_DIRECTORY
    · rw [if_pos ht]
      exact ⟨fun e h => rfl, fun s1 h => by simp at h⟩
    · rw [if_neg ht]
      cases hbd : readBlock s ino.data_block with
      | none => exact ⟨fun e h => rfl, fun s1 h => by simp at h⟩
      | some bd =>
        simp only []
        cases hl : lookupIdx (readAsDir bd) nm with
        | none => exact ⟨fun e h => rfl, fun s1 h => by simp at h⟩
        | some j =>
          simp only []
          cases hwb : writeBlock s ino.data_block (.dirB ((readAsDir bd).set j emptyEntry)) with
          | none => exact ⟨fun e h => rfl, fun s1 h => by simp at h⟩
          | some s1 =>
            simp only []
            have hwb1 : s1 = { s with disk := s.disk.set ino.data_block (.dirB ((readAsDir bd).set j emptyEntry)) } := by
              rw [writeBlock] at hwb
              by_cases hr : ino.data_block < s.disk.length
              · rw [if_pos hr] at hwb; exact (Option.some.inj hwb).symm
              · rw [if_neg hr] at hwb; exact absurd hwb (by simp)
            cases hsi : save_inode s1 { ino with modified_time := now } with
            | some s2 =>
              simp only []
              refine ⟨fun e h => by simp at h, fun s3 h => ?_⟩
              obtain ⟨rfl, -⟩ : s2 = s3 ∧ True := by
                constructor
                · exact (Prod.mk.injEq _ _ _ _ ▸ h).1
                · trivial
              have hs2 : s2 = { s1 with inodes := s1.inodes.set ino.inode_num ({ ino with modified_time := now }) } := by
                rw [save_inode] at hsi
                by_cases hn : ({ ino with modified_time := now } : Inode).inode_num < MAX_INODES
                · rw [if_pos hn] at hsi; exact (Option.some.inj hsi).symm
                · rw [if_neg hn] at hsi; exact absurd hsi (by simp)
              rw [hs2, hwb1]
              refine ⟨rfl, rfl, by simp⟩
            | none =>
              simp only []
              refine ⟨fun e h => by simp at h, fun s3 h => ?_⟩
              obtain rfl : s1 = s3 := (Prod.mk.injEq _ _ _ _ ▸ h).1
              rw [hwb1]
              exact ⟨rfl, rfl, by simp⟩

/-- C5 (amended): removeDirectory fails without modifying the state on every
error (NotADirectory, NotEmpty, IsRoot, NotFound); on the root path it
returns IsRoot only when the root is empty and NotEmpty when the root has
entries, because the emptiness check precedes the root check; it succeeds
only on an empty non-root directory, whose inode is freed and whose data
block's bitmap bit is cleared. -/
theorem removeDirectory_spec (s : FS) (p : List Char) (now : Nat) :
    (∀ e s1, removeDirectory s p now = (s1, .error e) → s1 = s) ∧
    (p = ['/'] → s.root_inode < MAX_INODES →
      (s.inodes.getD s.root_inode default).typ = TYPE_DIRECTORY →
      ((is_directory_empty s s.root_inode = true →
        (removeDirectory s p now).2 = .error .isRoot) ∧
       (is_directory_empty s s.root_inode = false →
        (removeDirectory s p now).2 = .error .notEmpty))) ∧
    (∀ s1, removeDirectory s p now = (s1, .ok ()) →
      ∃ d, find_inode_by_path s p = some d ∧ d < MAX_INODES ∧
        (s.inodes.getD d default).typ = TYPE_DIRECTORY ∧
        is_directory_empty s d = true ∧ d ≠ s.root_inode ∧
        (s.inodes.length = MAX_INODES → usedAt s1 d = false) ∧
        (s.bitmap.length = s.total_blocks →
          (s.inodes.getD d default).data_block ≠ 0 →
          (s.inodes.getD d default).data_block < s.total_blocks →
          bitAt s1 (s.inodes.getD d default).data_block = false)) := by
  rw [removeDirectory]
  cases hf : find_inode_by_path s p with
  | none =>
    refine ⟨fun e s1 h => (Prod.mk.injEq _ _ _ _ ▸ h).1.symm, ?_, ?_⟩
    · intro hp
      rw [hp, find_inode_by_path, if_pos rfl] at hf
      exact absurd hf (by simp)
    · intro s1 h; simp at h
  | some d =>
    simp only []
    have hdroot : p = ['/'] → d = s.root_inode := by
      intro hp
      rw [hp, find_inode_by_path, if_pos rfl] at hf
      exact (Option.some.inj hf).symm
    cases hli : load_inode s d with
    | none =>
      refine ⟨fun e s1 h => (Prod.mk.injEq _ _ _ _ ▸ h).1.symm, ?_, ?_⟩
      · intro hp hroot htyp
        rw [load_inode, if_pos (by rw [hdroot hp]; exact hroot)] at hli
        exact absurd hli (by simp)
      · intro s1 h; simp at h
    | some ino =>
      simp only []
      have hino : d < MAX_INODES ∧ s.inodes.getD d default = ino := by
        rw [load_inode] at hli
        by_cases hd : d < MAX_INODES
        · rw [if_pos hd] at hli; exact ⟨hd, Option.some.inj hli⟩
        · rw [if_neg hd] at hli; exact absurd hli (by simp)
      by_cases ht : ino.typ ≠ TYPE_DIRECTORY
      · rw [if_pos ht]
        refine ⟨fun e s1 h => (Prod.mk.injEq _ _ _ _ ▸ h).1.symm, ?_, ?_⟩
        · intro hp hroot htyp
          have hd2 := hdroot hp
          rw [← hd2, hino.2] at htyp
          exact absurd htyp ht
        · intro s1 h; simp at h
      · rw [if_neg ht]
        by_cases he : is_directory_empty s d = true
        · rw [if_neg (by simp [he])]
          by_cases hr : d = s.root_inode
          · rw [if_pos hr]
            refine ⟨fun e s1 h => (Prod.mk.injEq _ _ _ _ ▸ h).1.symm, ?_, ?_⟩
            · intro hp hroot htyp
              refine ⟨fun _ => rfl, fun hne => ?_⟩
              rw [hdroot hp] at he
              rw [he] at hne
              cases hne
            · intro s1 h; simp at h
          · rw [if_neg hr]
            cases hre : remove_directory_entry s ino.parent_inode ino.name now with
            | mk s2 r =>
              obtain ⟨hrerr, hrok⟩ := remove_entry_cases s ino.parent_inode ino.name now
              cases r with
              | error e2 =>
                have hs2 : s2 = s := by
                  have := hrerr e2 (by rw [hre])
                  rw [hre] at this
                  exact this
                refine ⟨fun e s1 h => ?_, ?_, ?_⟩
                · have : s2 = s1 := (Prod.mk.injEq _ _ _ _ ▸ h).1
                  rw [← this, hs2]
                · intro hp
                  exact absurd (hdroot hp) hr
                · intro s1 h; simp at h
              | ok u =>
                obtain ⟨hb2, ht2, hl2⟩ := hrok s2 (by rw [hre])
                simp only []
                by_cases hdb : ino.data_block ≠ 0
                · rw [if_pos hdb]
                  by_cases hrange : ino.data_block < s2.total_blocks
                  · rw [free_block, if_pos hrange]
                    simp only [Option.getD_some]
                    rw [free_inode, if_pos hino.1]
                    refine ⟨fun e s1 h => by simp at h, ?_, ?_⟩
                    · intro hp
                      exact absurd (hdroot hp) hr
                    · intro s1 h
                      obtain rfl : _ = s1 := (Prod.mk.injEq _ _ _ _ ▸ h).1
                      refine ⟨d, rfl, hino.1, by rw [hino.2]; exact not_not.mp ht, he,
                        hr, ?_, ?_⟩
                      · intro hlen
                        rw [usedAt]
                        show ((s2.inodes.set d
                            ({ s2.inodes.getD d default with used := false })).getD
                              d default).used = false
                        rw [getD_set_self _ _ _ _ (by rw [hl2]; omega)]
                      · intro hbl hdb2 hdblt
                        rw [hino.2] at hdb2 hdblt
                        rw [bitAt, hino.2]
                        show (s2.bitmap.set ino.data_block false).getD
                          ino.data_block true = false
                        rw [hb2]
                        exact getD_set_self _ _ _ _ (by omega)
                  · rw [free_block, if_neg hrange]
                    simp only [Option.getD_none]
                    rw [free_inode, if_pos hino.1]
                    refine ⟨fun e s1 h => by simp at h, ?_, ?_⟩
                    · intro hp
                      exact absurd (hdroot hp) hr
                    · intro s1 h
                      obtain rfl : _ = s1 := (Prod.mk.injEq _ _ _ _ ▸ h).1
                      refine ⟨d, rfl, hino.1, by rw [hino.2]; exact not_not.mp ht, he,
                        hr, ?_, ?_⟩
                      · intro hlen
                        rw [usedAt]
                        show ((s2.inodes.set d
                            ({ s2.inodes.getD d default with used := false })).getD
                              d default).used = false
                        rw [getD_set_self _ _ _ _ (by rw [hl2]; omega)]
                      · intro hbl hdb2 hdblt
                        rw [hino.2] at hdblt
                        exact absurd (by rw [ht2]; exact hdblt) hrange
                · rw [if_neg hdb]
                  rw [free_inode, if_pos hino.1]
                  refine ⟨fun e s1 h => by simp at h, ?_, ?_⟩
                  · intro hp
                    exact absurd (hdroot hp) hr
                  · intro s1 h
                    obtain rfl : _ = s1 := (Prod.mk.injEq _ _ _ _ ▸ h).1
                    refine ⟨d, rfl, hino.1, by rw [hino.2]; exact not_not.mp ht, he,
                      hr, ?_, ?_⟩
                    · intro hlen
                      rw [usedAt]
                      show ((s2.inodes.set d
                          ({ s2.inodes.getD d default with used := false })).getD
                            d default).used = false
                      rw [getD_set_self _ _ _ _ (by rw [hl2]; omega)]
                    · intro hbl hdb2 hdblt
                      rw [hino.2] at hdb2
                      exact absurd hdb2 hdb
        · rw [if_pos (by simpa using he)]
          refine ⟨fun e s1 h => (Prod.mk.injEq _ _ _ _ ▸ h).1.symm, ?_, ?_⟩
          · intro hp hroot htyp
            refine ⟨fun hemp => ?_, fun _ => rfl⟩
            rw [hdroot hp] at he
            exact absurd hemp he
          · intro s1 h; simp at h

/-- Counterexample for C5 as frozen: on a volume whose root directory is
not empty, removeDirectory "/" fails with NotEmpty, not IsRoot (the
emptiness check runs before the root check). -/
theorem removeDirectory_root_counterexample :
    (removeDirectory fileFS ['/'] 0).2 = .error .notEmpty ∧
    (removeDirectory fileFS ['/'] 0).2 ≠ .error .isRoot := by
  constructor
  · decide
  · decide

/-- Witness for C5 (amended) at concrete volumes: empty root gives IsRoot,
non-empty root gives NotEmpty. -/
theorem removeDirectory_spec_witness :
    (removeDirectory baseFS ['/'] 0).2 = .error .isRoot ∧
    (removeDirectory fileFS ['/'] 0).2 = .error .notEmpty := by
  have h1 := ((removeDirectory_spec baseFS ['/'] 0).2.1 rfl (by decide) (by decide)).1
    (by decide)
  have h2 := ((removeDirectory_spec fileFS ['/'] 0).2.1 rfl (by decide) (by decide)).2
    (by decide)
  exact ⟨h1, h2⟩

theorem allocate_inode_eq (s : FS) (now : Nat) (sa : FS) (oi : Option Nat)
    (h : allocate_inode s now = (sa, oi)) :
    (oi = none → sa = s) ∧
    (∀ i, oi = some i → i < MAX_INODES ∧ usedAt s i = false ∧
      sa = { s with inodes := s.inodes.set i (freshInode i now) }) := by
  rw [allocate_inode] at h
  cases hfi : firstIdxAux (inodeFreePred s.inodes) 0 MAX_INODES with
  | none =>
    rw [hfi] at h
    obtain rfl : s = sa := (Prod.mk.injEq _ _ _ _ ▸ h).1
    have ho : (none : Option Nat) = oi := (Prod.mk.injEq _ _ _ _ ▸ h).2
    exact ⟨fun _ => rfl, fun i hi => Option.noConfusion (ho.trans hi)⟩
  | some j =>
    rw [hfi] at h
    simp only [] at h
    have hs := (Prod.mk.injEq _ _ _ _ ▸ h).1
    have ho := (Prod.mk.injEq _ _ _ _ ▸ h).2
    obtain ⟨-, h2, h3, -⟩ := firstIdxAux_some _ _ _ _ hfi
    refine ⟨fun hc => Option.noConfusion (ho.trans hc), fun i hi => ?_⟩
    rw [← ho] at hi
    obtain rfl : j = i := Option.some.inj hi
    refine ⟨by omega, ?_, hs.symm⟩
    rw [usedAt]
    rw [inodeFreePred] at h3
    simpa using h3

theorem allocate_block_eq (s sa : FS) (ob : Option Nat)
    (h : allocate_block s = (sa, ob)) :
    (ob = none → sa = s) ∧
    (∀ b, ob = some b → b < s.total_blocks ∧ bitAt s b = false ∧
      sa = { s with bitmap := s.bitmap.set b true }) := by
  rw [allocate_block] at h
  cases hfi : firstFree s.bitmap s.total_blocks with
  | none =>
    rw [hfi] at h
    obtain rfl : s = sa := (Prod.mk.injEq _ _ _ _ ▸ h).1
    have ho : (none : Option Nat) = ob := (Prod.mk.injEq _ _ _ _ ▸ h).2
    exact ⟨fun _ => rfl, fun b hb => Option.noConfusion (ho.trans hb)⟩
  | some j =>
    rw [hfi] at h
    simp only [] at h
    have hs := (Prod.mk.injEq _ _ _ _ ▸ h).1
    have ho := (Prod.mk.injEq _ _ _ _ ▸ h).2
    obtain ⟨-, h2, h3, -⟩ := firstIdxAux_some _ _ _ _ hfi
    refine ⟨fun hc => Option.noConfusion (ho.trans hc), fun b hb => ?_⟩
    rw [← ho] at hb
    obtain rfl : j = b := Option.some.inj hb
    refine ⟨by omega, ?_, hs.symm⟩
    rw [bitAt]
    rw [freeBitPred] at h3
    simpa using h3

theorem add_entry_error_frame (s : FS) (dir : Nat) (nm : List Char)
    (inum t now : Nat) :
    ∀ e, (add_directory_entry s dir nm inum t now).2 = .error e →
      (add_directory_entry s dir nm inum t now).1 = s := by
  rw [add_directory_entry]
  cases hli : load_inode s dir with
  | none => exact fun e h => rfl
  | some ino =>
    simp only []
    by_cases ht : ino.typ ≠ TYPE_DIRECTORY
    · rw [if_pos ht]; exact fun e h => rfl
    · rw [if_neg ht]
      cases hbd : readBlock s ino.data_block with
      | none => exact fun e h => rfl
      | some bd =>
        simp only []
        cases hl : lookupIdx (readAsDir bd) nm with
        | some j => exact fun e h => rfl
        | none =>
          simp only []
          cases hse : slotEmptyIdx (readAsDir bd) with
          | none => exact fun e h => rfl
          | some j =>
            simp only []
            cases hwb : writeBlock s ino.data_block (.dirB ((readAsDir bd).set j
                ({ name := nm.take (MAX_FILENAME_LEN - 1), inode_num := inum, typ := t }))) with
            | none => exact fun e h => rfl
            | some s1 =>
              simp only []
              cases hsi : save_inode s1 { ino with modified_time := now } with
              | some s2 => exact fun e h => by simp at h
              | none => exact fun e h => by simp at h

theorem usedAt_set_clear (l : List Inode) (n : Nat) :
    ((l.set n ({ l.getD n default with used := false })).getD n default).used = false := by
  by_cases h : n < l.length
  · rw [getD_set_self _ _ _ _ h]
  · have h2 : l.length ≤ n := by omega
    rw [List.getD_eq_default _ _ (by simpa using h2)]
    rfl

theorem finishCreate_error_frame (s0 : FS) (ino : Inode) (pi : Nat)
    (fn : List Char) (t now : Nat)
    (hn : ino.inode_num < MAX_INODES)
    (hbl : s0.total_blocks ≤ s0.bitmap.length) :
    ∀ e s1, finishCreate s0 ino pi fn t now = (s1, .error e) →
      (∀ i, usedAt s1 i = if i = ino.inode_num then false else usedAt s0 i) ∧
      (∀ b, bitAt s1 b =
        if t = TYPE_DIRECTORY ∧ ino.data_block ≠ 0 ∧
            ino.data_block < s0.total_blocks ∧ b = ino.data_block
          then false else bitAt s0 b) := by
  intro e s1 h
  rw [finishCreate, save_inode, if_pos hn] at h
  simp only [] at h
  cases hadd : add_directory_entry
      ({ s0 with inodes := s0.inodes.set ino.inode_num ino }) pi fn
      ino.inode_num t now with
  | mk s2 r =>
    rw [hadd] at h
    cases r with
    | ok u =>
      simp only [] at h
      exact absurd ((Prod.mk.injEq _ _ _ _ ▸ h).2) (by simp)
    | error e2 =>
      have hs2 : s2 = { s0 with inodes := s0.inodes.set ino.inode_num ino } := by
        have := add_entry_error_frame
          ({ s0 with inodes := s0.inodes.set ino.inode_num ino }) pi fn
          ino.inode_num t now e2 (by rw [hadd])
        rw [hadd] at this
        exact this
      subst hs2
      simp only [] at h
      rw [rollbackCreate] at h
      by_cases hc : t = TYPE_DIRECTORY ∧ ino.data_block ≠ 0
      · rw [if_pos hc] at h
        by_cases hrange : ino.data_block <
            ({ s0 with inodes := s0.inodes.set ino.inode_num ino } : FS).total_blocks
        · rw [free_block, if_pos hrange] at h
          simp only [Option.getD_some] at h
          rw [free_inode, if_pos hn] at h
          simp only [] at h
          obtain rfl : _ = s1 := (Prod.mk.injEq _ _ _ _ ▸ h).1
          have hrange0 : ino.data_block < s0.total_blocks := hrange
          constructor
          · intro i
            by_cases hi : i = ino.inode_num
            · subst hi
              rw [if_pos rfl, usedAt]
              exact usedAt_set_clear (s0.inodes.set ino.inode_num ino) ino.inode_num
            · rw [if_neg hi, usedAt, usedAt]
              show (((s0.inodes.set ino.inode_num ino).set ino.inode_num
                  ({ (s0.inodes.set ino.inode_num ino).getD ino.inode_num default
                    with used := false })).getD i default).used
                = (s0.inodes.getD i default).used
              rw [getD_set_other _ _ _ _ _ hi, getD_set_other _ _ _ _ _ hi]
          · intro b
            by_cases hb : b = ino.data_block
            · rw [if_pos ⟨hc.1, hc.2, hrange0, hb⟩, bitAt]
              subst hb
              show (s0.bitmap.set ino.data_block false).getD ino.data_block true = false
              exact getD_set_self _ _ _ _ (by omega)
            · rw [if_neg (fun hcon => hb hcon.2.2.2), bitAt, bitAt]
              show (s0.bitmap.set ino.data_block false).getD b true
                = s0.bitmap.getD b true
              exact getD_set_other _ _ _ _ _ hb
        · rw [free_block, if_neg hrange] at h
          simp only [Option.getD_none] at h
          rw [free_inode, if_pos hn] at h
          simp only [] at h
          obtain rfl : _ = s1 := (Prod.mk.injEq _ _ _ _ ▸ h).1
          constructor
          · intro i
            by_cases hi : i = ino.inode_num
            · subst hi
              rw [if_pos rfl, usedAt]
              exact usedAt_set_clear (s0.inodes.set ino.inode_num ino) ino.inode_num
            · rw [if_neg hi, usedAt, usedAt]
              show (((s0.inodes.set ino.inode_num ino).set ino.inode_num
                  ({ (s0.inodes.set ino.inode_num ino).getD ino.inode_num default
                    with used := false })).getD i default).used
                = (s0.inodes.getD i default).used
              rw [getD_set_other _ _ _ _ _ hi, getD_set_other _ _ _ _ _ hi]
          · intro b
            rw [if_neg (fun hcon => hrange hcon.2.2.1)]
            rfl
      · rw [if_neg hc] at h
        rw [free_inode, if_pos hn] at h
        simp only [] at h
        obtain rfl : _ = s1 := (Prod.mk.injEq _ _ _ _ ▸ h).1
        constructor
        · intro i
          by_cases hi : i = ino.inode_num
          · subst hi
            rw [if_pos rfl, usedAt]
            exact usedAt_set_clear (s0.inodes.set ino.inode_num ino) ino.inode_num
          · rw [if_neg hi, usedAt, usedAt]
            show (((s0.inodes.set ino.inode_num ino).set ino.inode_num
                ({ (s0.inodes.set ino.inode_num ino).getD ino.inode_num default
                  with used := false })).getD i default).used
              = (s0.inodes.getD i default).used
            rw [getD_set_other _ _ _ _ _ hi, getD_set_other _ _ _ _ _ hi]
        · intro b
          rw [if_neg (fun hcon => hc ⟨hcon.1, hcon.2.1⟩)]
          rfl

/-- C1: whenever createFile returns an error, every inode used flag and
every bitmap bit is exactly as before the call: a failure after partial
allocation (inode, and for directories a data block) releases everything it
allocated.  The two hypotheses are the format invariants that block 0 (the
superblock) is marked used and that the bitmap covers all blocks. -/
theorem createFile_error_releases (s : FS) (p : List Char) (t now : Nat)
    (e : Err) (s1 : FS)
    (hb0 : bitAt s 0 = true)
    (hbl : s.total_blocks ≤ s.bitmap.length)
    (h : createFile s p t now = (s1, .error e)) :
    (∀ i, usedAt s1 i = usedAt s i) ∧ (∀ b, bitAt s1 b = bitAt s b) := by
  rw [createFile] at h
  simp only [] at h
  cases hf : find_inode_by_path s (splitParent p).1 with
  | none =>
    rw [hf] at h
    simp only [] at h
    obtain rfl : s = s1 := (Prod.mk.injEq _ _ _ _ ▸ h).1
    exact ⟨fun i => rfl, fun b => rfl⟩
  | some parent_inode =>
    rw [hf] at h
    simp only [] at h
    cases hlp : load_inode s parent_inode with
    | none =>
      rw [hlp] at h
      simp only [] at h
      obtain rfl : s = s1 := (Prod.mk.injEq _ _ _ _ ▸ h).1
      exact ⟨fun i => rfl, fun b => rfl⟩
    | some parent =>
      rw [hlp] at h
      simp only [] at h
      cases hbd : readBlock s parent.data_block with
      | none =>
        rw [hbd] at h
        simp only [] at h
        obtain rfl : s = s1 := (Prod.mk.injEq _ _ _ _ ▸ h).1
        exact ⟨fun i => rfl, fun b => rfl⟩
      | some bd =>
        rw [hbd] at h
        simp only [] at h
        cases hdup : lookupIdx (readAsDir bd) (splitParent p).2 with
        | some j =>
          rw [hdup] at h
          simp only [] at h
          obtain rfl : s = s1 := (Prod.mk.injEq _ _ _ _ ▸ h).1
          exact ⟨fun i => rfl, fun b => rfl⟩
        | none =>
          rw [hdup] at h
          simp only [] at h
          cases hai : allocate_inode s now with
          | mk sa oi =>
            rw [hai] at h
            obtain ⟨hainone, haisome⟩ := allocate_inode_eq s now sa oi hai
            cases oi with
            | none =>
              simp only [] at h
              obtain rfl : sa = s1 := (Prod.mk.injEq _ _ _ _ ▸ h).1
              rw [hainone rfl]
              exact ⟨fun i => rfl, fun b => rfl⟩
            | some new =>
              simp only [] at h
              obtain ⟨hn128, hused, hsa⟩ := haisome new rfl
              have hsaT : sa.total_blocks = s.total_blocks := by rw [hsa]
              have hsaB : sa.bitmap = s.bitmap := by rw [hsa]
              have hsaI : sa.inodes = s.inodes.set new (freshInode new now) := by
                rw [hsa]
              by_cases hdir : t = TYPE_DIRECTORY
              · rw [if_pos hdir] at h
                cases hab : allocate_block sa with
                | mk sb ob =>
                  rw [hab] at h
                  obtain ⟨habnone, habsome⟩ := allocate_block_eq _ _ _ hab
                  cases ob with
                  | none =>
                    simp only [] at h
                    rw [free_inode, if_pos hn128] at h
                    simp only [] at h
                    obtain rfl : _ = s1 := (Prod.mk.injEq _ _ _ _ ▸ h).1
                    have hsbe := habnone rfl
                    constructor
                    · intro i
                      rw [usedAt]
                      show ((sb.inodes.set new
                          ({ sb.inodes.getD new default with used := false })).getD
                            i default).used = usedAt s i
                      rw [hsbe, hsaI]
                      by_cases hi : i = new
                      · subst hi
                        rw [hused]
                        exact usedAt_set_clear (s.inodes.set i (freshInode i now)) i
                      · rw [getD_set_other _ _ _ _ _ hi, getD_set_other _ _ _ _ _ hi,
                          usedAt]
                    · intro b
                      rw [bitAt, bitAt]
                      show sb.bitmap.getD b true = s.bitmap.getD b true
                      rw [hsbe, hsaB]
                  | some db =>
                    simp only [] at h
                    obtain ⟨hdblt, hdbfree, hsb⟩ := habsome db rfl
                    have hdbfree0 : bitAt s db = false := by
                      rw [bitAt, hsaB] at hdbfree
                      exact hdbfree
                    have hdblt0 : db < s.total_blocks := by
                      rw [hsaT] at hdblt
                      exact hdblt
                    have hdbne : db ≠ 0 := by
                      intro h0
                      rw [h0, hb0] at hdbfree0
                      cases hdbfree0
                    have hsbT : sb.total_blocks = s.total_blocks := by
                      rw [hsb]
                      exact hsaT
                    have hsbB : sb.bitmap = s.bitmap.set db true := by
                      rw [hsb]
                      show sa.bitmap.set db true = s.bitmap.set db true
                      rw [hsaB]
                    have hsbI : sb.inodes = s.inodes.set new (freshInode new now) := by
                      rw [hsb]
                      exact hsaI
                    cases hwb : writeBlock sb db
                        (.dirB (List.replicate ENTRIES_PER_BLOCK emptyEntry)) with
                    | none =>
                      rw [hwb] at h
                      simp only [Option.getD_none] at h
                      obtain ⟨hu, hbit⟩ := finishCreate_error_frame sb _ parent_inode
                        ((splitParent p).2) t now hn128
                        (by rw [hsbT, hsbB]; simpa using hbl) e s1 h
                      constructor
                      · intro i
                        rw [hu i]
                        by_cases hi : i = new
                        · subst hi
                          rw [if_pos rfl, hused]
                        · rw [if_neg hi, usedAt, usedAt, hsbI,
                            getD_set_other _ _ _ _ _ hi]
                      · intro b
                        rw [hbit b]
                        by_cases hb : b = db
                        · subst hb
                          rw [if_pos ⟨hdir, hdbne, by rw [hsbT]; exact hdblt0, rfl⟩,
                            hdbfree0]
                        · rw [if_neg (fun hcon => hb hcon.2.2.2), bitAt, bitAt, hsbB,
                            getD_set_other _ _ _ _ _ hb]
                    | some sw =>
                      rw [hwb] at h
                      simp only [Option.getD_some] at h
                      have hswe : sw = { sb with disk := sb.disk.set db (.dirB (List.replicate ENTRIES_PER_BLOCK emptyEntry)) } := by
                        rw [writeBlock] at hwb
                        by_cases hrd : db < sb.disk.length
                        · rw [if_pos hrd] at hwb
                          exact (Option.some.inj hwb).symm
                        · rw [if_neg hrd] at hwb
                          exact absurd hwb (by simp)
                      have hswT : sw.total_blocks = s.total_blocks := by
                        rw [hswe]
                        exact hsbT
                      have hswB : sw.bitmap = s.bitmap.set db true := by
                        rw [hswe]
                        exact hsbB
                      have hswI : sw.inodes = s.inodes.set new (freshInode new now) := by
                        rw [hswe]
                        exact hsbI
                      obtain ⟨hu, hbit⟩ := finishCreate_error_frame sw _ parent_inode
                        ((splitParent p).2) t now hn128
                        (by rw [hswT, hswB]; simpa using hbl) e s1 h
                      constructor
                      · intro i
                        rw [hu i]
                        by_cases hi : i = new
                        · subst hi
                          rw [if_pos rfl, hused]
                        · rw [if_neg hi, usedAt, usedAt, hswI,
                            getD_set_other _ _ _ _ _ hi]
                      · intro b
                        rw [hbit b]
                        by_cases hb : b = db
                        · subst hb
                          rw [if_pos ⟨hdir, hdbne, by rw [hswT]; exact hdblt0, rfl⟩,
                            hdbfree0]
                        · rw [if_neg (fun hcon => hb hcon.2.2.2), bitAt, bitAt, hswB,
                            getD_set_other _ _ _ _ _ hb]
              · rw [if_neg hdir] at h
                obtain ⟨hu, hbit⟩ := finishCreate_error_frame sa _ parent_inode
                  ((splitParent p).2) t now hn128
                  (by rw [hsaT, hsaB]; exact hbl) e s1 h
                constructor
                · intro i
                  rw [hu i]
                  by_cases hi : i = new
                  · subst hi
                    rw [if_pos rfl, hused]
                  · rw [if_neg hi, usedAt, usedAt, hsaI, getD_set_other _ _ _ _ _ hi]
                · intro b
                  rw [hbit b]
                  rw [if_neg (fun hcon => hdir hcon.1)]
                  rw [bitAt, bitAt, hsaB]


theorem getD_append_left {α : Type} (l1 l2 : List α) (n : Nat) (d : α)
    (h : n < l1.length) : (l1 ++ l2).getD n d = l1.getD n d := by
  induction l1 generalizing n with
  | nil => exact absurd h (by simp)
  | cons x xs ih =>
    cases n with
    | zero => rfl
    | succ m =>
      rw [List.cons_append, List.getD_cons_succ, List.getD_cons_succ]
      exact ih m (by simpa using h)

theorem getD_append_right {α : Type} (l1 l2 : List α) (n : Nat) (d : α)
    (h : l1.length ≤ n) : (l1 ++ l2).getD n d = l2.getD (n - l1.length) d := by
  induction l1 generalizing n with
  | nil => simp
  | cons x xs ih =>
    cases n with
    | zero => exact absurd h (by simp)
    | succ m =>
      rw [List.cons_append, List.getD_cons_succ, ih m (by simpa using h)]
      simp

theorem getD_replicate {α : Type} (a d : α) (n k : Nat) (h : k < n) :
    (List.replicate n a).getD k d = a := by
  induction n generalizing k with
  | zero => omega
  | succ m ih =>
    cases k with
    | zero => rfl
    | succ j =>
      rw [List.replicate_succ, List.getD_cons_succ]
      exact ih j (by omega)

theorem getq_set_self {α : Type} (l : List α) (n : Nat) (a : α)
    (h : n < l.length) : (l.set n a).get? n = some a := by
  induction l generalizing n with
  | nil => exact absurd h (by simp)
  | cons x xs ih =>
    cases n with
    | zero => rfl
    | succ m =>
      rw [List.set_cons_succ, List.get?_cons_succ]
      exact ih m (by simpa using h)

theorem set_append_len {α : Type} (l1 : List α) (x : α) (rest : List α) (a : α) :
    (l1 ++ x :: rest).set l1.length a = l1 ++ a :: rest := by
  induction l1 with
  | nil => rfl
  | cons y ys ih =>
    rw [List.cons_append, List.cons_append]
    show (y :: (ys ++ x :: rest)).set (ys.length + 1) a = y :: (ys ++ a :: rest)
    rw [List.set_cons_succ, ih]

theorem take_of_le {α : Type} (l : List α) (n : Nat) (h : l.length ≤ n) :
    l.take n = l := by
  induction l generalizing n with
  | nil => simp
  | cons x xs ih =>
    cases n with
    | zero => exact absurd h (by simp)
    | succ m =>
      rw [List.take_succ_cons, ih m (by simpa using h)]

theorem lookupIdx_eq_none (es : List DirectoryEntry) (nm : List Char)
    (h : ∀ e ∈ es, e.name = [] ∨ e.name ≠ nm) : lookupIdx es nm = none := by
  rw [lookupIdx, firstIdxAux_none]
  intro k hk1 hk2
  rw [entryMatches, decide_eq_false_iff_not]
  rintro ⟨hne, heq⟩
  have hmem := getD_mem es k emptyEntry (by omega)
  rcases h _ hmem with h1 | h1
  · exact hne h1
  · exact h1 heq

theorem lookupIdx_isSome_of_mem (es : List DirectoryEntry) (nm : List Char)
    (k : Nat) (hk : k < es.length)
    (hne : (es.getD k emptyEntry).name ≠ [])
    (heq : (es.getD k emptyEntry).name = nm) :
    ∃ j, lookupIdx es nm = some j := by
  cases hl : lookupIdx es nm with
  | some j => exact ⟨j, rfl⟩
  | none =>
    rw [lookupIdx, firstIdxAux_none] at hl
    have hfk := hl k (Nat.zero_le _) (by omega)
    rw [entryMatches, decide_eq_false_iff_not] at hfk
    exact absurd ⟨hne, heq⟩ hfk

theorem slotEmptyIdx_eq (es : List DirectoryEntry) (j : Nat)
    (hj : j < es.length)
    (hje : (es.getD j emptyEntry).name = [])
    (hmin : ∀ k, k < j → (es.getD k emptyEntry).name ≠ []) :
    slotEmptyIdx es = some j := by
  rw [slotEmptyIdx]
  apply firstIdxAux_eq_some _ _ _ _ (Nat.zero_le _) (by omega)
  · rw [entryEmptyP]
    exact decide_eq_true hje
  · intro k hk1 hk2
    rw [entryEmptyP, decide_eq_false_iff_not]
    exact hmin k hk2

theorem slotEmptyIdx_none (es : List DirectoryEntry)
    (h : ∀ e ∈ es, e.name ≠ []) : slotEmptyIdx es = none := by
  rw [slotEmptyIdx, firstIdxAux_none]
  intro k hk1 hk2
  rw [entryEmptyP, decide_eq_false_iff_not]
  exact h _ (getD_mem es k emptyEntry (by omega))

theorem add_entry_success (s : FS) (d : Nat) (nm : List Char) (inum t now : Nat)
    (ino : Inode) (es : List DirectoryEntry) (j : Nat)
    (hd : d < MAX_INODES)
    (hid : ino.inode_num = d)
    (hino : s.inodes.getD d default = ino)
    (htyp : ino.typ = TYPE_DIRECTORY)
    (hdb : ino.data_block < s.disk.length)
    (hbd : s.disk.get? ino.data_block = some (.dirB es))
    (hnodup : lookupIdx es nm = none)
    (hslot : slotEmptyIdx es = some j) :
    add_directory_entry s d nm inum t now =
      ({ s with
          disk := s.disk.set ino.data_block (.dirB (es.set j
            ({ name := nm.take (MAX_FILENAME_LEN - 1), inode_num := inum, typ := t }))),
          inodes := s.inodes.set d ({ ino with modified_time := now }) }, .ok ()) := by
  rw [add_directory_entry, load_inode, if_pos hd, hino]
  simp only []
  rw [if_neg (fun hcc => hcc htyp)]
  rw [show readBlock s ino.data_block = some (.dirB es) from hbd]
  simp only [readAsDir]
  rw [hnodup]
  simp only []
  rw [hslot]
  simp only []
  rw [writeBlock, if_pos hdb]
  simp only []
  rw [save_inode,
    if_pos (show ({ ino with modified_time := now } : Inode).inode_num < MAX_INODES
      from by show ino.inode_num < MAX_INODES; rw [hid]; exact hd)]
  simp only []
  rw [show ({ ino with modified_time := now } : Inode).inode_num = d from hid]

theorem set_set_same {α : Type} (l : List α) (n : Nat) (a b : α) :
    (l.set n a).set n b = l.set n b := by
  induction l generalizing n with
  | nil => rfl
  | cons x xs ih =>
    cases n with
    | zero => rfl
    | succ m =>
      rw [List.set_cons_succ, List.set_cons_succ, List.set_cons_succ, ih]

theorem addChain_fills (names : List (List Char)) :
    ∀ (s : FS) (d inum t now : Nat) (ino : Inode)
      (filled : List DirectoryEntry) (m : Nat),
    names.length ≤ m →
    d < MAX_INODES →
    s.inodes.length = MAX_INODES →
    ino.inode_num = d →
    s.inodes.getD d default = ino →
    ino.typ = TYPE_DIRECTORY →
    ino.data_block < s.disk.length →
    s.disk.get? ino.data_block = some (.dirB (filled ++ List.replicate m emptyEntry)) →
    (∀ e ∈ filled, e.name ≠ []) →
    (∀ nm ∈ names, ∀ e ∈ filled, e.name ≠ nm) →
    names.Pairwise (fun a b => a ≠ b) →
    (∀ nm ∈ names, nm ≠ [] ∧ nm.take (MAX_FILENAME_LEN - 1) = nm) →
    (names = [] → addChain s d names inum t now = (s, .ok ())) ∧
    (names ≠ [] → addChain s d names inum t now =
      ({ s with
          disk := s.disk.set ino.data_block (.dirB (filled ++
            names.map (fun nm => ({ name := nm, inode_num := inum, typ := t } :
              DirectoryEntry)) ++
            List.replicate (m - names.length) emptyEntry)),
          inodes := s.inodes.set d ({ ino with modified_time := now }) }, .ok ())) := by
  induction names with
  | nil =>
    intro s d inum t now ino filled m _ _ _ _ _ _ _ _ _ _ _ _
    exact ⟨fun _ => rfl, fun hne => absurd rfl hne⟩
  | cons nm rest ih =>
    intro s d inum t now ino filled m hm hd hil hid hino htyp hdb hbd hfne hnodup hpw hvalid
    refine ⟨fun hc => absurd hc (by simp), fun _ => ?_⟩
    obtain ⟨m', rfl⟩ : ∃ m', m = m' + 1 := ⟨m - 1, by simp at hm; omega⟩
    have hvnm := hvalid nm (List.mem_cons_self _ _)
    have hlk : lookupIdx (filled ++ List.replicate (m' + 1) emptyEntry) nm = none := by
      apply lookupIdx_eq_none
      intro e he
      rcases List.mem_append.mp he with hf | hr
      · exact Or.inr (hnodup nm (List.mem_cons_self _ _) e hf)
      · exact Or.inl (by rw [List.eq_of_mem_replicate hr]; rfl)
    have hslot : slotEmptyIdx (filled ++ List.replicate (m' + 1) emptyEntry)
        = some filled.length := by
      apply slotEmptyIdx_eq
      · rw [List.length_append, List.length_replicate]; omega
      · rw [getD_append_right _ _ _ _ (Nat.le_refl _), Nat.sub_self,
          getD_replicate _ _ _ _ (by omega)]
        rfl
      · intro k hk
        rw [getD_append_left _ _ _ _ hk]
        exact hfne _ (getD_mem filled k emptyEntry hk)
    have hstep := add_entry_success s d nm inum t now ino _ filled.length hd hid hino
      htyp hdb hbd hlk hslot
    have hsetE : (filled ++ List.replicate (m' + 1) emptyEntry).set filled.length
        ({ name := nm.take (MAX_FILENAME_LEN - 1), inode_num := inum, typ := t } :
          DirectoryEntry)
        = filled ++ ({ name := nm, inode_num := inum, typ := t } : DirectoryEntry)
            :: List.replicate m' emptyEntry := by
      rw [List.replicate_succ, set_append_len, hvnm.2]
    rw [hsetE] at hstep
    rw [addChain, hstep]
    simp only []
    have hpwc := List.pairwise_cons.mp hpw
    obtain ⟨hihnil, hihcons⟩ := ih
      ({ s with
          disk := s.disk.set ino.data_block (.dirB (filled ++
            ({ name := nm, inode_num := inum, typ := t } : DirectoryEntry)
              :: List.replicate m' emptyEntry)),
          inodes := s.inodes.set d ({ ino with modified_time := now }) })
      d inum t now ({ ino with modified_time := now })
      (filled ++ [({ name := nm, inode_num := inum, typ := t } : DirectoryEntry)]) m'
      (by simp at hm ⊢; omega)
      hd
      (by rw [List.length_set]; exact hil)
      hid
      (by rw [getD_set_self _ _ _ _ (by rw [hil]; exact hd)])
      htyp
      (by rw [List.length_set]; exact hdb)
      (by
        show (s.disk.set ino.data_block _).get? ino.data_block = _
        rw [getq_set_self _ _ _ hdb, List.append_assoc]
        rfl)
      (by
        intro e he
        rcases List.mem_append.mp he with hf | hr
        · exact hfne e hf
        · rw [List.mem_singleton.mp hr]
          exact hvnm.1)
      (by
        intro nm2 hnm2 e he
        rcases List.mem_append.mp he with hf | hr
        · exact hnodup nm2 (List.mem_cons_of_mem _ hnm2) e hf
        · rw [List.mem_singleton.mp hr]
          exact hpwc.1 nm2 hnm2)
      hpwc.2
      (fun nm2 hnm2 => hvalid nm2 (List.mem_cons_of_mem _ hnm2))
    by_cases hrest : rest = []
    · rw [hihnil hrest, hrest]
      simp only [List.map_cons, List.map_nil, List.length_cons, List.length_nil]
      rw [List.append_assoc]
      rfl
    · rw [hihcons hrest]
      simp only []
      rw [set_set_same, set_set_same]
      show ({ s with
          disk := s.disk.set ino.data_block (.dirB ((filled ++
            [({ name := nm, inode_num := inum, typ := t } : DirectoryEntry)]) ++
              rest.map (fun nm2 => ({ name := nm2, inode_num := inum, typ := t } :
                DirectoryEntry)) ++
              List.replicate (m' - rest.length) emptyEntry)),
          inodes := s.inodes.set d ({ ino with modified_time := now }) }, (.ok () : Res Unit))
        = _
      rw [List.append_assoc filled]
      have harith : m' - rest.length = m' + 1 - (nm :: rest).length := by
        rw [List.length_cons]; omega
      rw [harith]
      rfl

/-- C7: a directory holds at most ENTRIES_PER_BLOCK = BLOCK_SIZE /
sizeof(DirectoryEntry) entries: from an empty directory, that many
consecutive inserts with distinct valid names all succeed and the next
insert fails with Full; inserting a name the directory already holds fails
with AlreadyExists; and a successful insert writes into the first empty
slot found by the ascending scan. -/
theorem dir_capacity (s : FS) (d inum t now : Nat) (ino : Inode)
    (names : List (List Char)) (g : List Char)
    (hcnt : names.length = ENTRIES_PER_BLOCK)
    (hd : d < MAX_INODES)
    (hil : s.inodes.length = MAX_INODES)
    (hid : ino.inode_num = d)
    (hino : s.inodes.getD d default = ino)
    (htyp : ino.typ = TYPE_DIRECTORY)
    (hdb : ino.data_block < s.disk.length)
    (hbd : s.disk.get? ino.data_block
      = some (.dirB (List.replicate ENTRIES_PER_BLOCK emptyEntry)))
    (hpw : names.Pairwise (fun a b => a ≠ b))
    (hvalid : ∀ nm ∈ names, nm ≠ [] ∧ nm.take (MAX_FILENAME_LEN - 1) = nm)
    (hgfresh : g ∉ names) :
    ((addChain s d names inum t now).2 = .ok () ∧
     (add_directory_entry (addChain s d names inum t now).1 d g inum t now).2
       = .error .full) ∧
    (∀ (s2 : FS) (d2 : Nat) (nm2 : List Char) (ino2 : Inode)
        (es2 : List DirectoryEntry),
      d2 < MAX_INODES → s2.inodes.getD d2 default = ino2 →
      ino2.typ = TYPE_DIRECTORY →
      readBlock s2 ino2.data_block = some (.dirB es2) →
      (∃ e ∈ es2, e.name ≠ [] ∧ e.name = nm2) →
      (add_directory_entry s2 d2 nm2 inum t now).2 = .error .alreadyExists) ∧
    (∀ (s2 : FS) (d2 : Nat) (nm2 : List Char) (ino2 : Inode)
        (es2 : List DirectoryEntry) (j2 : Nat),
      d2 < MAX_INODES → s2.inodes.getD d2 default = ino2 →
      ino2.inode_num = d2 → ino2.typ = TYPE_DIRECTORY →
      ino2.data_block < s2.disk.length →
      s2.disk.get? ino2.data_block = some (.dirB es2) →
      (∀ e ∈ es2, e.name = [] ∨ e.name ≠ nm2) →
      j2 < es2.length →
      (es2.getD j2 emptyEntry).name = [] →
      (∀ k, k < j2 → (es2.getD k emptyEntry).name ≠ []) →
      ((add_directory_entry s2 d2 nm2 inum t now).1.disk.get? ino2.data_block
        = some (.dirB (es2.set j2
          ({ name := nm2.take (MAX_FILENAME_LEN - 1), inode_num := inum,
             typ := t }))) ∧
       (add_directory_entry s2 d2 nm2 inum t now).2 = .ok ())) := by
  have hnonnil : names ≠ [] := by
    intro hc
    rw [hc] at hcnt
    exact absurd hcnt.symm (by decide)
  have hfills := (addChain_fills names s d inum t now ino []
    ENTRIES_PER_BLOCK (by omega) hd hil hid hino htyp hdb
    (by simpa using hbd)
    (fun e he => absurd he (List.not_mem_nil e))
    (fun nm hnm e he => absurd he (List.not_mem_nil e))
    hpw hvalid).2 hnonnil
  have hES : (([] : List DirectoryEntry) ++
      names.map (fun nm => ({ name := nm, inode_num := inum, typ := t } :
        DirectoryEntry)) ++
      List.replicate (ENTRIES_PER_BLOCK - names.length) emptyEntry)
      = names.map (fun nm => ({ name := nm, inode_num := inum, typ := t } :
        DirectoryEntry)) := by
    rw [hcnt, Nat.sub_self]
    simp
  rw [hES] at hfills
  refine ⟨⟨by rw [hfills], ?_⟩, ?_, ?_⟩
  · rw [hfills]
    simp only []
    rw [add_directory_entry, load_inode, if_pos hd,
      getD_set_self _ _ _ _ (by rw [hil]; exact hd)]
    simp only []
    rw [if_neg (fun hcc => hcc htyp)]
    have hrb : readBlock
        ({ s with
            disk := s.disk.set ino.data_block (.dirB (names.map
              (fun nm => ({ name := nm, inode_num := inum, typ := t } :
                DirectoryEntry)))),
            inodes := s.inodes.set d ({ ino with modified_time := now }) })
        (({ ino with modified_time := now } : Inode).data_block)
        = some (.dirB (names.map (fun nm =>
            ({ name := nm, inode_num := inum, typ := t } : DirectoryEntry)))) := by
      rw [readBlock]
      show (s.disk.set ino.data_block _).get? ino.data_block = _
      exact getq_set_self _ _ _ hdb
    rw [hrb]
    simp only [readAsDir]
    rw [lookupIdx_eq_none _ _ (by
      intro e he
      obtain ⟨nm, hnm, rfl⟩ := List.mem_map.mp he
      exact Or.inr (fun heq => hgfresh (heq ▸ hnm)))]
    simp only []
    rw [slotEmptyIdx_none _ (by
      intro e he
      obtain ⟨nm, hnm, rfl⟩ := List.mem_map.mp he
      exact (hvalid nm hnm).1)]
  · intro s2 d2 nm2 ino2 es2 hd2 hino2 htyp2 hbd2 hex
    rw [add_directory_entry, load_inode, if_pos hd2, hino2]
    simp only []
    rw [if_neg (fun hcc => hcc htyp2), hbd2]
    simp only [readAsDir]
    obtain ⟨e, he, hne, heq⟩ := hex
    obtain ⟨k, hk, hke⟩ := mem_getD es2 e emptyEntry he
    obtain ⟨j, hj⟩ := lookupIdx_isSome_of_mem es2 nm2 k hk
      (by rw [hke]; exact hne) (by rw [hke]; exact heq)
    rw [hj]
  · intro s2 d2 nm2 ino2 es2 j2 hd2 hino2 hid2 htyp2 hdb2 hbd2 hnod hj2 hj2e hj2min
    have hsucc := add_entry_success s2 d2 nm2 inum t now ino2 es2 j2 hd2 hid2
      hino2 htyp2 hdb2 hbd2
      (lookupIdx_eq_none _ _ hnod)
      (slotEmptyIdx_eq _ _ hj2 hj2e hj2min)
    rw [hsucc]
    constructor
    · show (s2.disk.set ino2.data_block _).get? ino2.data_block = _
      exact getq_set_self _ _ _ hdb2
    · rfl

/-- Witness for C7 on a concrete empty directory: six inserts succeed, the
seventh fails with Full. -/
theorem dir_capacity_witness :
    (addChain dirFS 1 ["f1".toList, "f2".toList, "f3".toList, "f4".toList,
      "f5".toList, "f6".toList] 9 1 3).2 = .ok () ∧
    (add_directory_entry (addChain dirFS 1 ["f1".toList, "f2".toList,
      "f3".toList, "f4".toList, "f5".toList, "f6".toList] 9 1 3).1 1
      "g7".toList 9 1 3).2 = .error .full := by
  have h := dir_capacity dirFS 1 9 1 3 dirIno
    ["f1".toList, "f2".toList, "f3".toList, "f4".toList, "f5".toList, "f6".toList]
    "g7".toList (by decide) (by decide) (by decide) (by decide) (by decide)
    (by decide) (by decide) (by decide) (by decide) (by decide) (by decide)
  exact ⟨h.1.1, h.1.2⟩

theorem getq_set_other {α : Type} (l : List α) (n k : Nat) (a : α)
    (h : n ≠ k) : (l.set k a).get? n = l.get? n := by
  induction l generalizing n k with
  | nil => rfl
  | cons x xs ih =>
    cases k with
    | zero =>
      cases n with
      | zero => exact absurd rfl h
      | succ m => rfl
    | succ k2 =>
      cases n with
      | zero => rfl
      | succ m =>
        rw [List.set_cons_succ, List.get?_cons_succ, List.get?_cons_succ]
        exact ih m k2 (fun hh => h (by rw [hh]))

theorem remove_entry_ok_shape (s : FS) (dparent : Nat) (nm : List Char)
    (now : Nat) (s2 : FS)
    (h : remove_directory_entry s dparent nm now = (s2, .ok ())) :
    s2.open_files = s.open_files ∧
    s2.inodes.length = s.inodes.length ∧
    (∀ i, i ≠ (s.inodes.getD dparent default).inode_num →
      s2.inodes.getD i default = s.inodes.getD i default) ∧
    (∀ b, b ≠ (s.inodes.getD dparent default).data_block →
      s2.disk.get? b = s.disk.get? b) := by
  rw [remove_directory_entry] at h
  cases hli : load_inode s dparent with
  | none => rw [hli] at h; simp at h
  | some ino =>
    have hino : s.inodes.getD dparent default = ino := by
      rw [load_inode] at hli
      by_cases hdp : dparent < MAX_INODES
      · rw [if_pos hdp] at hli; exact Option.some.inj hli
      · rw [if_neg hdp] at hli; exact absurd hli (by simp)
    rw [hli] at h
    simp only [] at h
    by_cases ht : ino.typ ≠ TYPE_DIRECTORY
    · rw [if_pos ht] at h; simp at h
    · rw [if_neg ht] at h
      cases hbd : readBlock s ino.data_block with
      | none => rw [hbd] at h; simp at h
      | some bd =>
        rw [hbd] at h
        simp only [] at h
        cases hl : lookupIdx (readAsDir bd) nm with
        | none => rw [hl] at h; simp at h
        | some j =>
          rw [hl] at h
          simp only [] at h
          cases hwb : writeBlock s ino.data_block
              (.dirB ((readAsDir bd).set j emptyEntry)) with
          | none => rw [hwb] at h; simp at h
          | some s1 =>
            rw [hwb] at h
            simp only [] at h
            have hwb1 : s1 = { s with disk := s.disk.set ino.data_block (.dirB ((readAsDir bd).set j emptyEntry)) } := by
              rw [writeBlock] at hwb
              by_cases hr : ino.data_block < s.disk.length
              · rw [if_pos hr] at hwb; exact (Option.some.inj hwb).symm
              · rw [if_neg hr] at hwb; exact absurd hwb (by simp)
            cases hsi : save_inode s1 { ino with modified_time := now } with
            | some s3 =>
              rw [hsi] at h
              simp only [] at h
              have heq32 : s3 = s2 := (Prod.mk.injEq _ _ _ _ ▸ h).1
              have hs3 : s2 = { s1 with inodes := s1.inodes.set ino.inode_num ({ ino with modified_time := now }) } := by
                rw [← heq32]
                rw [save_inode] at hsi
                by_cases hnn : ({ ino with modified_time := now } : Inode).inode_num < MAX_INODES
                · rw [if_pos hnn] at hsi; exact (Option.some.inj hsi).symm
                · rw [if_neg hnn] at hsi; exact absurd hsi (by simp)
              rw [hs3, hwb1]
              refine ⟨rfl, by simp, ?_, ?_⟩
              · intro i hi
                rw [hino] at hi
                show ((s.inodes.set ino.inode_num _).getD i default) = _
                rw [getD_set_other _ _ _ _ _ hi]
              · intro b hb
                rw [hino] at hb
                show ((s.disk.set ino.data_block _).get? b) = _
                rw [getq_set_other _ _ _ _ hb]
            | none =>
              rw [hsi] at h
              simp only [] at h
              have heq12 : s1 = s2 := (Prod.mk.injEq _ _ _ _ ▸ h).1
              rw [← heq12, hwb1]
              refine ⟨rfl, by simp, fun i hi => rfl, ?_⟩
              · intro b hb
                rw [hino] at hb
                show ((s.disk.set ino.data_block _).get? b) = _
                rw [getq_set_other _ _ _ _ hb]

theorem readFile_ok_bytes (ss : FS) (fd len now2 : Nat)
    (entry : OpenFileEntry) (ino2 : Inode) (bs : List Nat)
    (hfd : fd < MAX_OPEN_FILES)
    (hentry : ss.open_files.getD fd default = entry)
    (huse : entry.in_use = true)
    (hmode : entry.mode &&& MODE_READ ≠ 0)
    (hn128 : entry.inode_num < MAX_INODES)
    (hload : ss.inodes.getD entry.inode_num default = ino2)
    (htyp : ino2.typ = TYPE_FILE)
    (hpos : entry.position < ino2.size)
    (hdb0 : ino2.data_block ≠ 0)
    (hbd : ss.disk.get? ino2.data_block = some (.dataB bs)) :
    (readFile ss fd len now2).2 =
      .ok ((bs.drop entry.position).take (min len (ino2.size - entry.position))) := by
  rw [readFile]
  rw [show get_open_file_entry ss fd = some entry from by
    rw [get_open_file_entry, if_pos hfd, hentry, if_pos huse]]
  simp only []
  rw [if_neg hmode]
  rw [load_inode, if_pos hn128, hload]
  simp only []
  rw [if_neg (by simp [htyp, TYPE_FILE]), if_neg (by omega),
    if_neg hdb0]
  rw [show readBlock ss ino2.data_block = some (.dataB bs) from hbd]
  simp only [readAsBytes]
  rw [show (if ino2.size < entry.position + len then ino2.size - entry.position
      else len) = min len (ino2.size - entry.position) from by
    rw [Nat.min_def]
    split <;> split <;> omega]

/-- C10: deleteFile never invalidates open-file-table entries: after
deleting an open file, the handle is still in use, the freed inode keeps
its stale type, size and data block (only the used flag is cleared), and a
subsequent readFile on the handle succeeds against the stale metadata,
returning the old bytes rather than an InvalidHandle error. -/
theorem deleteFile_stale_read (s : FS) (p : List Char) (now now2 : Nat)
    (fd n len : Nat) (entry : OpenFileEntry) (s1 : FS) (ino : Inode)
    (bs : List Nat)
    (hfd : fd < MAX_OPEN_FILES)
    (hil : s.inodes.length = MAX_INODES)
    (hentry : s.open_files.getD fd default = entry)
    (huse : entry.in_use = true)
    (hmode : entry.mode &&& MODE_READ ≠ 0)
    (hn : entry.inode_num = n)
    (hn128 : n < MAX_INODES)
    (hino : s.inodes.getD n default = ino)
    (htyp : ino.typ = TYPE_FILE)
    (hfind : find_inode_by_path s p = some n)
    (hpar : ino.parent_inode < MAX_INODES)
    (hpn : (s.inodes.getD ino.parent_inode default).inode_num ≠ n)
    (hdist : ino.data_block ≠ (s.inodes.getD ino.parent_inode default).data_block)
    (hpos : entry.position < ino.size)
    (hdb0 : ino.data_block ≠ 0)
    (hbd : s.disk.get? ino.data_block = some (.dataB bs))
    (hdel : deleteFile s p now = (s1, .ok ())) :
    s1.open_files = s.open_files ∧
    (s1.inodes.getD n default).used = false ∧
    (s1.inodes.getD n default).typ = ino.typ ∧
    (s1.inodes.getD n default).size = ino.size ∧
    (s1.inodes.getD n default).data_block = ino.data_block ∧
    (readFile s1 fd len now2).2 =
      .ok ((bs.drop entry.position).take (min len (ino.size - entry.position))) ∧
    (readFile s1 fd len now2).2 ≠ .error .invalidHandle := by
  rw [deleteFile, hfind] at hdel
  simp only [] at hdel
  rw [load_inode, if_pos hn128, hino] at hdel
  simp only [] at hdel
  rw [if_neg (fun hcc => hcc htyp)] at hdel
  rw [load_inode, if_pos hpar] at hdel
  simp only [] at hdel
  cases hre : remove_directory_entry s ino.parent_inode ino.name now with
  | mk s2 r =>
    rw [hre] at hdel
    cases r with
    | error e2 => simp at hdel
    | ok u =>
      simp only [] at hdel
      obtain ⟨hof2, hlen2, hslots2, hdisk2⟩ :=
        remove_entry_ok_shape s ino.parent_inode ino.name now s2 (by rw [hre])
      have hsl2 : s2.inodes.getD n default = ino := by
        rw [hslots2 n (Ne.symm hpn), hino]
      have hfinal : ∀ s3 : FS, s3.inodes = s2.inodes → free_inode s3 n =
          some { s3 with inodes := s3.inodes.set n ({ ino with used := false }) } := by
        intro s3 hi3
        rw [free_inode, if_pos hn128, hi3, hsl2]
      have hmain : ∀ s3 : FS, s3.inodes = s2.inodes →
          s3.open_files = s.open_files →
          (∀ b2, b2 ≠ (s.inodes.getD ino.parent_inode default).data_block →
            s3.disk.get? b2 = s.disk.get? b2) →
          ({ s3 with inodes := s3.inodes.set n ({ ino with used := false }) } : FS)
            = s1 →
          s1.open_files = s.open_files ∧
          (s1.inodes.getD n default).used = false ∧
          (s1.inodes.getD n default).typ = ino.typ ∧
          (s1.inodes.getD n default).size = ino.size ∧
          (s1.inodes.getD n default).data_block = ino.data_block ∧
          (readFile s1 fd len now2).2 =
            .ok ((bs.drop entry.position).take
              (min len (ino.size - entry.position))) ∧
          (readFile s1 fd len now2).2 ≠ .error .invalidHandle := by
        intro s3 hi3 hof3 hdisk3 hs1eq
        have hof1 : s1.open_files = s.open_files := by
          rw [← hs1eq]
          exact hof3
        have hslot1 : s1.inodes.getD n default = { ino with used := false } := by
          rw [← hs1eq]
          show (s3.inodes.set n _).getD n default = _
          rw [getD_set_self _ _ _ _ (by rw [hi3, hlen2, hil]; exact hn128)]
        have hdisk1 : s1.disk.get? ino.data_block = some (.dataB bs) := by
          rw [← hs1eq]
          show s3.disk.get? ino.data_block = _
          rw [hdisk3 ino.data_block hdist, hbd]
        have hread := readFile_ok_bytes s1 fd len now2 entry
          ({ ino with used := false }) bs hfd
          (by rw [hof1, hentry]) huse hmode (by rw [hn]; exact hn128)
          (by rw [hn]; exact hslot1) htyp hpos hdb0 hdisk1
        refine ⟨hof1, by rw [hslot1], by rw [hslot1], by rw [hslot1],
          by rw [hslot1], hread, ?_⟩
        rw [hread]
        simp
      by_cases hdb : ino.data_block ≠ 0
      · rw [if_pos hdb] at hdel
        by_cases hrange : ino.data_block < s2.total_blocks
        · rw [free_block, if_pos hrange] at hdel
          simp only [Option.getD_some] at hdel
          rw [hfinal { s2 with bitmap := s2.bitmap.set ino.data_block false } rfl]
            at hdel
          simp only [] at hdel
          exact hmain { s2 with bitmap := s2.bitmap.set ino.data_block false } rfl
            hof2 (fun b2 hb2 => hdisk2 b2 hb2)
            (Prod.mk.injEq _ _ _ _ ▸ hdel).1
        · rw [free_block, if_neg hrange] at hdel
          simp only [Option.getD_none] at hdel
          rw [hfinal s2 rfl] at hdel
          simp only [] at hdel
          exact hmain s2 rfl hof2 (fun b2 hb2 => hdisk2 b2 hb2)
            (Prod.mk.injEq _ _ _ _ ▸ hdel).1
      · exact absurd hdb0 (by simpa using hdb)

/-- Witness for C10: deleting the open 2-byte file and then reading through
the still-open handle returns the stale bytes. -/
theorem deleteFile_stale_read_witness :
    ((deleteFile dataFS "/a.txt".toList 7).1.inodes.getD 1 default).used = false ∧
    (readFile (deleteFile dataFS "/a.txt".toList 7).1 0 10 8).2 = .ok [104, 105] ∧
    (readFile (deleteFile dataFS "/a.txt".toList 7).1 0 10 8).2
      ≠ .error .invalidHandle := by
  have h := deleteFile_stale_read dataFS "/a.txt".toList 7 8 0 1 10 readEntry
    (deleteFile dataFS "/a.txt".toList 7).1 fileIno2
    (104 :: 105 :: List.replicate 254 0)
    (by decide) (by decide) (by decide) (by decide) (by decide) (by decide)
    (by decide) (by decide) (by decide) (by decide) (by decide) (by decide)
    (by decide) (by decide) (by decide) (by decide) (by decide)
  obtain ⟨-, hu, -, -, -, hr, hni⟩ := h
  exact ⟨hu, by rw [hr]; decide, hni⟩

theorem countP_congr_getD {α : Type} (p : α → Bool) (d : α) (l1 : List α) :
    ∀ l2 : List α, l1.length = l2.length →
    (∀ i, p (l1.getD i d) = p (l2.getD i d)) →
    l1.countP p = l2.countP p := by
  induction l1 with
  | nil =>
    intro l2 h _
    cases l2 with
    | nil => rfl
    | cons y ys => exact absurd h (by simp)
  | cons x xs ih =>
    intro l2 h hp
    cases l2 with
    | nil => exact absurd h (by simp)
    | cons y ys =>
      rw [List.countP_cons, List.countP_cons,
        ih ys (by simpa using h) (fun i => by
          have h2 := hp (i + 1)
          rw [List.getD_cons_succ, List.getD_cons_succ] at h2
          exact h2)]
      have h0 := hp 0
      simp only [List.getD_cons_zero] at h0
      rw [h0]

theorem parseComponents_no_slash (l : List Char) :
    ∀ acc, ('/' : Char) ∉ l →
    parseComponents l acc = if acc ++ l = [] then [] else [acc ++ l] := by
  induction l with
  | nil =>
    intro acc _
    show (if acc = [] then [] else [acc]) = if acc ++ [] = [] then [] else [acc ++ []]
    rw [List.append_nil]
  | cons c rest ih =>
    intro acc h
    have hc : ¬ (c = '/') := fun hcc => h (by rw [hcc]; exact List.mem_cons_self _ _)
    show (if c = '/' then
        (if acc = [] then parseComponents rest [] else acc :: parseComponents rest [])
      else parseComponents rest (acc ++ [c])) = _
    rw [if_neg hc]
    rw [ih (acc ++ [c]) (fun hm => h (List.mem_cons_of_mem c hm))]
    have h1 : acc ++ [c] ++ rest = acc ++ c :: rest := by simp
    rw [h1]

theorem find_inode_single (s : FS) (name : List Char)
    (hname : name ≠ []) (hns : ('/' : Char) ∉ name)
    (hlen : name.length ≤ MAX_FILENAME_LEN - 1) :
    find_inode_by_path s ('/' :: name) = walkPath s [name] s.root_inode := by
  have hlen2 : name.length ≤ 31 := hlen
  have hne : ¬ ('/' :: name = ['/']) := by
    intro hcc
    injection hcc with h1 h2
    exact hname h2
  have hpc : parseComponents ('/' :: name) [] = [name] := by
    show (if ('/' : Char) = '/' then
        (if ([] : List Char) = [] then parseComponents name []
         else [] :: parseComponents name [])
      else parseComponents name ([] ++ ['/'])) = [name]
    rw [if_pos rfl, if_pos rfl, parseComponents_no_slash name [] hns]
    rw [if_neg (by simpa using hname)]
    simp
  have hany : ([name].any (fun c => decide (MAX_FILENAME_LEN - 1 < c.length))) = false := by
    simp only [List.any_cons, List.any_nil, Bool.or_false, decide_eq_false_iff_not,
      MAX_FILENAME_LEN]
    omega
  have hpp : parse_path ('/' :: name) = some [name] := by
    rw [parse_path]
    rw [hpc]
    rw [if_neg (by rw [hany]; simp)]
  rw [find_inode_by_path, if_neg hne, hpp]

theorem rollbackCreate_error (s : FS) (ino : Inode) (t : Nat) (e : Err) :
    (rollbackCreate s ino t e).2 = .error e := by
  rw [rollbackCreate]
  cases hfi : free_inode (if t = TYPE_DIRECTORY ∧ ino.data_block ≠ 0 then
      (free_block s ino.data_block).getD s else s) ino.inode_num with
  | some s2 => rfl
  | none => rfl

/-- remove_directory_entry on a directory whose block holds the name at slot
j: the slot is zeroed and the directory mtime saved. -/
theorem remove_entry_success (s : FS) (d : Nat) (nm : List Char) (now : Nat)
    (ino : Inode) (es : List DirectoryEntry) (j : Nat)
    (hd : d < MAX_INODES)
    (hid : ino.inode_num = d)
    (hino : s.inodes.getD d default = ino)
    (htyp : ino.typ = TYPE_DIRECTORY)
    (hdb : ino.data_block < s.disk.length)
    (hbd : s.disk.get? ino.data_block = some (.dirB es))
    (hfound : lookupIdx es nm = some j) :
    remove_directory_entry s d nm now =
      ({ s with
          disk := s.disk.set ino.data_block (.dirB (es.set j emptyEntry)),
          inodes := s.inodes.set d ({ ino with modified_time := now }) }, .ok ()) := by
  rw [remove_directory_entry, load_inode, if_pos hd, hino]
  simp only []
  rw [if_neg (fun hcc => hcc htyp)]
  rw [show readBlock s ino.data_block = some (.dirB es) from hbd]
  simp only [readAsDir]
  rw [hfound]
  simp only []
  rw [writeBlock, if_pos hdb]
  simp only []
  rw [save_inode,
    if_pos (show ({ ino with modified_time := now } : Inode).inode_num < MAX_INODES
      from by show ino.inode_num < MAX_INODES; rw [hid]; exact hd)]
  simp only []
  rw [show ({ ino with modified_time := now } : Inode).inode_num = d from hid]

theorem lookupIdx_set_new (es : List DirectoryEntry) (nm : List Char) (j : Nat)
    (e : DirectoryEntry) (hj : j < es.length)
    (hnm : e.name = nm) (hne : nm ≠ [])
    (hnodup : lookupIdx es nm = none) :
    lookupIdx (es.set j e) nm = some j := by
  rw [lookupIdx]
  apply firstIdxAux_eq_some
  · exact Nat.zero_le _
  · rw [List.length_set]
    omega
  · rw [entryMatches, getD_set_self _ _ _ _ hj]
    exact decide_eq_true ⟨by rw [hnm]; exact hne, hnm⟩
  · intro m hm1 hm2
    rw [entryMatches, getD_set_other _ _ _ _ _ (by omega)]
    rw [lookupIdx, firstIdxAux_none] at hnodup
    have h3 := hnodup m (Nat.zero_le _) (by omega)
    rw [entryMatches] at h3
    exact h3

/-- C4 counterexample: createFile on the relative path "a/b" silently
rewrites the parent prefix to "/" and succeeds by creating /b, but
deleteFile resolves "a/b" literally, finds no entry "a" in the root, and
fails, so the allocated inode stays used: the free-inode count drops from
127 to 126 and is not restored by the delete. -/
theorem create_delete_symmetry_counterexample :
    (createFile baseFS ['a', '/', 'b'] TYPE_FILE 0).2 = .ok () ∧
    (deleteFile (createFile baseFS ['a', '/', 'b'] TYPE_FILE 0).1 ['a', '/', 'b'] 1).2
      = .error .notFound ∧
    baseFS.inodes.countP (fun i => !i.used) = 127 ∧
    (deleteFile (createFile baseFS ['a', '/', 'b'] TYPE_FILE 0).1
      ['a', '/', 'b'] 1).1.inodes.countP (fun i => !i.used) = 126 := by
  refine ⟨by decide, by decide, by decide, by decide⟩

/-- C4 (amended): for an absolute single-component path "/name" (name
nonempty, slash-free, at most 31 characters) on which createFile with
TYPE_FILE succeeds, deleteFile of the same path succeeds and restores the
used flag of every inode slot and the whole free-block bitmap to their
pre-create values, hence both the free-inode count and the free-block
count.  The original unrestricted claim fails: see the counterexample,
where a create on a relative path succeeds but the delete cannot
re-resolve the path. -/
theorem create_delete_symmetry (s : FS) (name : List Char) (now now2 : Nat)
    (s1 : FS) (parent : Inode) (es : List DirectoryEntry)
    (hname : name ≠ []) (hns : ('/' : Char) ∉ name)
    (hlen : name.length ≤ MAX_FILENAME_LEN - 1)
    (hil : s.inodes.length = MAX_INODES)
    (hrl : s.root_inode < MAX_INODES)
    (hparent : s.inodes.getD s.root_inode default = parent)
    (hrused : parent.used = true)
    (htypd : parent.typ = TYPE_DIRECTORY)
    (hpin : parent.inode_num = s.root_inode)
    (hbd : s.disk.get? parent.data_block = some (.dirB es))
    (hcre : createFile s ('/' :: name) TYPE_FILE now = (s1, .ok ())) :
    (deleteFile s1 ('/' :: name) now2).2 = .ok () ∧
    (∀ i, usedAt (deleteFile s1 ('/' :: name) now2).1 i = usedAt s i) ∧
    (deleteFile s1 ('/' :: name) now2).1.bitmap = s.bitmap ∧
    (deleteFile s1 ('/' :: name) now2).1.inodes.countP (fun i => !i.used)
      = s.inodes.countP (fun i => !i.used) ∧
    (deleteFile s1 ('/' :: name) now2).1.bitmap.countP (fun b => !b)
      = s.bitmap.countP (fun b => !b) := by
  have htake : name.take (MAX_FILENAME_LEN - 1) = name := take_of_le name _ hlen
  have hdbl : parent.data_block < s.disk.length := by
    rcases List.get?_eq_some.mp hbd with ⟨h1, -⟩
    exact h1
  have hsp : splitParent ('/' :: name) = (['/'], name) := by
    rw [splitParent, lastSlashIdx_cons_slash name hns]
    simp only []
    rw [if_pos trivial, if_pos (show ('/' :: name).headD 'a' = '/' from rfl)]
    show (['/'], name.take (MAX_FILENAME_LEN - 1)) = (['/'], name)
    rw [htake]
  have hfr : find_inode_by_path s ['/'] = some s.root_inode := by
    rw [find_inode_by_path, if_pos rfl]
  rw [createFile, hsp] at hcre
  simp only [] at hcre
  rw [hfr] at hcre
  simp only [] at hcre
  rw [load_inode, if_pos hrl, hparent] at hcre
  simp only [] at hcre
  rw [show readBlock s parent.data_block = some (BlockData.dirB es) from hbd] at hcre
  simp only [readAsDir] at hcre
  cases hnodup : lookupIdx es name with
  | some j0 =>
    rw [hnodup] at hcre
    simp at hcre
  | none =>
    rw [hnodup] at hcre
    simp only [] at hcre
    cases hal : allocate_inode s now with
    | mk sa oi =>
      rw [hal] at hcre
      cases oi with
      | none => simp at hcre
      | some n =>
        simp only [] at hcre
        obtain ⟨-, hsome⟩ := allocate_inode_eq s now sa (some n) hal
        obtain ⟨hn128, hnfree, hsa⟩ := hsome n rfl
        rw [if_neg (show ¬ (TYPE_FILE = TYPE_DIRECTORY) from by decide)] at hcre
        rw [htake] at hcre
        have hbase : ∃ b : Inode,
            ({ inode_num := n, typ := TYPE_FILE, name := name, size := 0,
               data_block := 0, parent_inode := s.root_inode, created_time := now,
               modified_time := now, accessed_time := now, used := true } : Inode) = b :=
          ⟨_, rfl⟩
        obtain ⟨base, hbase⟩ := hbase
        rw [hbase] at hcre
        have hbn : base.inode_num = n := by rw [← hbase]
        have hbt : base.typ = TYPE_FILE := by rw [← hbase]
        have hbname : base.name = name := by rw [← hbase]
        have hbdb : base.data_block = 0 := by rw [← hbase]
        have hbpar : base.parent_inode = s.root_inode := by rw [← hbase]
        rw [finishCreate] at hcre
        rw [save_inode,
          if_pos (show base.inode_num < MAX_INODES from by rw [hbn]; exact hn128)] at hcre
        simp only [] at hcre
        rw [hbn] at hcre
        have hsainodes : sa.inodes = s.inodes.set n (freshInode n now) := by rw [hsa]
        have hsadisk : sa.disk = s.disk := by rw [hsa]
        have hsabm : sa.bitmap = s.bitmap := by rw [hsa]
        have hsaroot : sa.root_inode = s.root_inode := by rw [hsa]
        have hnr : ¬ (s.root_inode = n) := by
          intro he
          rw [usedAt, ← he, hparent, hrused] at hnfree
          exact absurd hnfree (by decide)
        have hSBino : (sa.inodes.set n base).getD s.root_inode default = parent := by
          rw [getD_set_other _ _ _ _ _ hnr, hsainodes, getD_set_other _ _ _ _ _ hnr,
            hparent]
        cases hslot : slotEmptyIdx es with
        | none =>
          rw [show add_directory_entry ({ sa with inodes := sa.inodes.set n base })
              s.root_inode name n TYPE_FILE now
              = ({ sa with inodes := sa.inodes.set n base }, .error .full) from by
            rw [add_directory_entry, load_inode, if_pos hrl]
            rw [show ({ sa with inodes := sa.inodes.set n base } : FS).inodes.getD
                s.root_inode default = parent from hSBino]
            simp only []
            rw [if_neg (fun hcc => hcc htypd)]
            rw [show readBlock ({ sa with inodes := sa.inodes.set n base } : FS)
                parent.data_block = some (BlockData.dirB es) from by
              show sa.disk.get? parent.data_block = _
              rw [hsadisk]
              exact hbd]
            simp only [readAsDir]
            rw [hnodup]
            simp only []
            rw [hslot]] at hcre
          simp only [] at hcre
          have hcontra := congrArg Prod.snd hcre
          rw [rollbackCreate_error] at hcontra
          simp at hcontra
        | some j =>
          have hfij : firstIdxAux (entryEmptyP es) 0 es.length = some j := hslot
          obtain ⟨-, hjlt0, hjP, -⟩ := firstIdxAux_some _ _ _ _ hfij
          have hjlt : j < es.length := by omega
          have hadd := add_entry_success ({ sa with inodes := sa.inodes.set n base })
            s.root_inode name n TYPE_FILE now parent es j hrl hpin hSBino htypd
            (show parent.data_block
                < ({ sa with inodes := sa.inodes.set n base } : FS).disk.length from by
              show parent.data_block < sa.disk.length
              rw [hsadisk]
              exact hdbl)
            (show ({ sa with inodes := sa.inodes.set n base } : FS).disk.get?
                parent.data_block = some (BlockData.dirB es) from by
              show sa.disk.get? parent.data_block = _
              rw [hsadisk]
              exact hbd)
            hnodup hslot
          rw [hadd] at hcre
          simp only [] at hcre
          rw [htake] at hcre
          have hcre1 := (Prod.mk.injEq _ _ _ _ ▸ hcre).1
          have hs1root : s1.root_inode = s.root_inode := by
            rw [← hcre1]
            show sa.root_inode = s.root_inode
            rw [hsaroot]
          have hs1bm : s1.bitmap = s.bitmap := by
            rw [← hcre1]
            show sa.bitmap = s.bitmap
            rw [hsabm]
          have hs1il : s1.inodes.length = MAX_INODES := by
            rw [← hcre1]
            show ((sa.inodes.set n base).set s.root_inode
              ({ parent with modified_time := now })).length = MAX_INODES
            rw [List.length_set, List.length_set, hsainodes, List.length_set, hil]
          have hs1getroot : s1.inodes.getD s.root_inode default
              = { parent with modified_time := now } := by
            rw [← hcre1]
            show ((sa.inodes.set n base).set s.root_inode
              ({ parent with modified_time := now })).getD s.root_inode default = _
            rw [getD_set_self _ _ _ _
              (by rw [List.length_set, hsainodes, List.length_set, hil]; exact hrl)]
          have hs1getn : s1.inodes.getD n default = base := by
            rw [← hcre1]
            show ((sa.inodes.set n base).set s.root_inode
              ({ parent with modified_time := now })).getD n default = base
            rw [getD_set_other _ _ _ _ _ (fun he => hnr he.symm),
              getD_set_self _ _ _ _
                (by rw [hsainodes, List.length_set, hil]; exact hn128)]
          have hs1getother : ∀ i, ¬ (i = n) → ¬ (i = s.root_inode) →
              s1.inodes.getD i default = s.inodes.getD i default := by
            intro i hin hir
            rw [← hcre1]
            show ((sa.inodes.set n base).set s.root_inode
              ({ parent with modified_time := now })).getD i default = _
            rw [getD_set_other _ _ _ _ _ hir, getD_set_other _ _ _ _ _ hin, hsainodes,
              getD_set_other _ _ _ _ _ hin]
          have hs1disk : s1.disk.get? parent.data_block
              = some (BlockData.dirB (es.set j
                ({ name := name, inode_num := n, typ := TYPE_FILE }))) := by
            rw [← hcre1]
            show (sa.disk.set parent.data_block (BlockData.dirB (es.set j
              ({ name := name, inode_num := n, typ := TYPE_FILE })))).get?
                parent.data_block = _
            rw [getq_set_self _ _ _ (by rw [hsadisk]; exact hdbl)]
          have hs1dl : parent.data_block < s1.disk.length := by
            rw [← hcre1]
            show parent.data_block < (sa.disk.set parent.data_block
              (BlockData.dirB (es.set j
                ({ name := name, inode_num := n, typ := TYPE_FILE })))).length
            rw [List.length_set, hsadisk]
            exact hdbl
          have hlk2 : lookupIdx (es.set j
              ({ name := name, inode_num := n, typ := TYPE_FILE } : DirectoryEntry))
              name = some j :=
            lookupIdx_set_new es name j _ hjlt rfl hname hnodup
          have hwalk : walkPath s1 [name] s1.root_inode = some n := by
            show (match load_inode s1 s1.root_inode with
              | none => none
              | some ino =>
                if ino.typ ≠ TYPE_DIRECTORY then none
                else
                  match readBlock s1 ino.data_block with
                  | none => none
                  | some bd =>
                    match lookupIdx (readAsDir bd) name with
                    | some j2 => walkPath s1 [] ((readAsDir bd).getD j2 emptyEntry).inode_num
                    | none => none) = some n
            rw [hs1root, load_inode, if_pos hrl, hs1getroot]
            simp only []
            rw [if_neg (fun hcc => hcc
              (show ({ parent with modified_time := now } : Inode).typ = TYPE_DIRECTORY
                from htypd))]
            rw [show readBlock s1 ({ parent with modified_time := now } : Inode).data_block
                = some (BlockData.dirB (es.set j
                  ({ name := name, inode_num := n, typ := TYPE_FILE }))) from by
              show s1.disk.get? parent.data_block = _
              exact hs1disk]
            simp only [readAsDir]
            rw [hlk2]
            simp only []
            rw [getD_set_self _ _ _ _ hjlt]
            rfl
          have hnnr : ¬ (n = s.root_inode) := fun he => hnr he.symm
          have hremP : ∃ sD, remove_directory_entry s1 s.root_inode name now2
                = (sD, .ok ()) ∧
              sD.bitmap = s1.bitmap ∧
              sD.inodes.length = s1.inodes.length ∧
              sD.inodes.getD n default = base ∧
              (∀ i, ¬ (i = s.root_inode) →
                sD.inodes.getD i default = s1.inodes.getD i default) ∧
              (sD.inodes.getD s.root_inode default).used = parent.used := by
            refine ⟨_, remove_entry_success s1 s.root_inode name now2
              ({ parent with modified_time := now })
              (es.set j ({ name := name, inode_num := n, typ := TYPE_FILE })) j
              hrl
              (show ({ parent with modified_time := now } : Inode).inode_num
                = s.root_inode from hpin)
              hs1getroot
              (show ({ parent with modified_time := now } : Inode).typ = TYPE_DIRECTORY
                from htypd)
              (show ({ parent with modified_time := now } : Inode).data_block
                < s1.disk.length from hs1dl)
              (show s1.disk.get?
                  ({ parent with modified_time := now } : Inode).data_block
                = some (BlockData.dirB (es.set j
                  ({ name := name, inode_num := n, typ := TYPE_FILE }))) from hs1disk)
              hlk2, ?_, ?_, ?_, ?_, ?_⟩
            · show s1.bitmap = s1.bitmap
              rfl
            · show (s1.inodes.set s.root_inode _).length = s1.inodes.length
              rw [List.length_set]
            · show (s1.inodes.set s.root_inode _).getD n default = base
              rw [getD_set_other _ _ _ _ _ hnnr, hs1getn]
            · intro i hir
              show (s1.inodes.set s.root_inode _).getD i default
                = s1.inodes.getD i default
              rw [getD_set_other _ _ _ _ _ hir]
            · show ((s1.inodes.set s.root_inode _).getD s.root_inode default).used
                = parent.used
              rw [getD_set_self _ _ _ _ (by rw [hs1il]; exact hrl)]
          obtain ⟨sD, hrem, hDbm, hDlen, hDn, hDother, hDroot⟩ := hremP
          have hfinP : ∃ sF, free_inode sD n = some sF ∧
              sF.bitmap = sD.bitmap ∧
              sF.inodes.length = sD.inodes.length ∧
              (∀ i, usedAt sF i = usedAt s i) := by
            refine ⟨{ sD with inodes := sD.inodes.set n { sD.inodes.getD n default with used := false } }, by rw [free_inode, if_pos hn128], ?_, ?_, ?_⟩
            · rfl
            · show (sD.inodes.set n _).length = sD.inodes.length
              rw [List.length_set]
            · intro i
              by_cases hi : i = n
              · rw [hi]
                show ((sD.inodes.set n _).getD n default).used = usedAt s n
                rw [getD_set_self _ _ _ _ (by rw [hDlen, hs1il]; exact hn128)]
                show false = usedAt s n
                exact hnfree.symm
              · show ((sD.inodes.set n _).getD i default).used = usedAt s i
                rw [getD_set_other _ _ _ _ _ hi]
                by_cases hir : i = s.root_inode
                · rw [hir, hDroot, usedAt, hparent]
                · rw [hDother i hir, hs1getother i hi hir]
                  rfl
          obtain ⟨sF, hfin, hFbm, hFlen, hFused⟩ := hfinP
          have hdel : deleteFile s1 ('/' :: name) now2 = (sF, .ok ()) := by
            rw [deleteFile, find_inode_single s1 name hname hns hlen, hwalk]
            simp only []
            rw [load_inode, if_pos hn128, hs1getn]
            simp only []
            rw [if_neg (fun hcc => hcc hbt)]
            rw [hbpar, hbname]
            rw [load_inode, if_pos hrl, hs1getroot]
            simp only []
            rw [hrem]
            simp only []
            rw [if_neg (show ¬ (base.data_block ≠ 0) from fun hcc => hcc hbdb)]
            rw [hfin]
          rw [hdel]
          refine ⟨rfl, hFused, ?_, ?_, ?_⟩
          · show sF.bitmap = s.bitmap
            rw [hFbm, hDbm, hs1bm]
          · show sF.inodes.countP (fun i => !i.used)
              = s.inodes.countP (fun i => !i.used)
            apply countP_congr_getD (fun i => !i.used) default sF.inodes s.inodes
            · rw [hFlen, hDlen, hs1il, hil]
            · intro i
              have h2 := hFused i
              rw [usedAt, usedAt] at h2
              exact congrArg (fun b => !b) h2
          · show sF.bitmap.countP (fun b => !b) = s.bitmap.countP (fun b => !b)
            rw [hFbm, hDbm, hs1bm]

/-- Witness for C4: creating /x on the base volume and then deleting it
returns the per-slot used flags, the bitmap and both free counts to their
initial values. -/
theorem create_delete_symmetry_witness :
    (deleteFile (createFile baseFS ['/', 'x'] TYPE_FILE 0).1 ['/', 'x'] 1).2 = .ok () ∧
    (∀ i, usedAt (deleteFile (createFile baseFS ['/', 'x'] TYPE_FILE 0).1 ['/', 'x'] 1).1 i
      = usedAt baseFS i) ∧
    (deleteFile (createFile baseFS ['/', 'x'] TYPE_FILE 0).1 ['/', 'x'] 1).1.bitmap
      = baseFS.bitmap ∧
    (deleteFile (createFile baseFS ['/', 'x'] TYPE_FILE 0).1 ['/', 'x'] 1).1.inodes.countP
      (fun i => !i.used) = baseFS.inodes.countP (fun i => !i.used) ∧
    (deleteFile (createFile baseFS ['/', 'x'] TYPE_FILE 0).1 ['/', 'x'] 1).1.bitmap.countP
      (fun b => !b) = baseFS.bitmap.countP (fun b => !b) :=
  create_delete_symmetry baseFS ['x'] 0 1 (createFile baseFS ['/', 'x'] TYPE_FILE 0).1
    rootIno (List.replicate 6 emptyEntry)
    (by decide) (by decide) (by decide) (by decide) (by decide) (by decide)
    (by decide) (by decide) (by decide) (by decide) (by decide)

/-- Witness for C1: on a volume whose root directory is full, creating /x
fails at the directory-insert step after the inode was allocated, and both
the used flags and the bitmap are exactly restored. -/
theorem createFile_error_releases_witness :
    (∀ i, usedAt (createFile fullRootFS ['/', 'x'] 1 0).1 i = usedAt fullRootFS i) ∧
    (∀ b, bitAt (createFile fullRootFS ['/', 'x'] 1 0).1 b = bitAt fullRootFS b) :=
  createFile_error_releases fullRootFS ['/', 'x'] 1 0 .full
    (createFile fullRootFS ['/', 'x'] 1 0).1 (by decide) (by decide) (by decide)

end TinyFS
